import Mathlib

/-!
# Samsung Galaxy S4 (jflte) ramdisk patchers

A shallow embedding of `libdbp/ramdiskpatchers/jflte/jflteramdiskpatcher.cpp`:
the four `patchRamdisk` pipelines (AOSP, Google Edition, noobdev, TouchWiz),
the two constructors that probe the archive for `MSM8960_lpm.rc`, and the
noobdev-specific `cxlModifyInitTargetRc` line rewrite.

Conventions of the embedding.

* A `std::string` / `std::vector<unsigned char>` is a `List Char`; one `Char`
  stands for one C++ `char`. Every literal used by the code is ASCII.
* The shared `CpioFile *` is a value threaded through the state `Impl`.
* The rule modules (`CoreRamdiskPatcher`, `QcomRamdiskPatcher`,
  `GalaxyRamdiskPatcher`) live in other translation units. Their operations
  are parameters: a function from the archive to a `StepResult`.
* `Impl.calls` is a ghost field: the log of collaborator operations invoked
  so far (oldest first). It is never read by the embedded code.
-/

namespace Jflte

/-! ## Text primitives (boost::split / boost::join / boost::replace_all / std::string::find) -/

/-- Contents of a file or of a `std::string`. -/
abbrev Bytes := List Char

/-- The scanning loop of `boost::replace_all`. `skip` is the number of
characters of the current match that are still to be consumed; with `skip = 0`
the scanner looks for `search` at the current position, emits `format` on a
match and otherwise copies one character. An empty `search` never matches. -/
def replaceAllFrom (search format : Bytes) : Nat → Bytes → Bytes
  | _, [] => []
  | skip + 1, _ :: cs => replaceAllFrom search format skip cs
  | 0, c :: cs =>
    if !search.isEmpty && search.isPrefixOf (c :: cs) then
      format ++ replaceAllFrom search format (search.length - 1) cs
    else
      c :: replaceAllFrom search format 0 cs

/-- The function `boost::replace_all(input, search, format)`: every
occurrence of `search`, found left to right without overlap, becomes `format`. -/
def replace_all (input search format : Bytes) : Bytes :=
  replaceAllFrom search format 0 input

/-- The function `std::string::find`: index of the first occurrence of `pat`
in `s`, `none` standing for `npos`. -/
def find (s pat : Bytes) : Option Nat :=
  match s with
  | [] => if pat.isEmpty then some 0 else none
  | c :: cs => if pat.isPrefixOf (c :: cs) then some 0 else (find cs pat).map (· + 1)

/-- The function `boost::split(lines, input, boost::is_any_of(sep))` with the
default `token_compress_off`: empty tokens are kept. -/
def split (input : Bytes) (sep : Char) : List Bytes :=
  input.splitOn sep

/-- The function `boost::join(lines, sep)` for a one-character separator. -/
def join (lines : List Bytes) (sep : Char) : Bytes :=
  [sep].intercalate lines

/-- Number of positions of `s` at which `pat` occurs. -/
def countOcc (pat : Bytes) : Bytes → Nat
  | [] => 0
  | c :: cs => (if pat.isPrefixOf (c :: cs) then 1 else 0) + countOcc pat cs

/-! ## Errors -/

/-- Modelled from the spec: the enumeration `MBP::ErrorCode`, declared outside
this file. Only `CpioFileNotExistError` is named by the code; `NoError` is the
code of a default-constructed error and `Other` stands for the remaining codes. -/
inductive ErrorCode
  | NoError
  | CpioFileNotExistError
  | Other (code : Nat)
deriving DecidableEq, Repr

/-- Modelled from the spec: the class `PatcherError`, declared outside this
file: "an error object carrying a classification and the path implicated". -/
structure PatcherError where
  errorCode : ErrorCode
  filename : String
deriving DecidableEq, Repr

/-- The factory `PatcherError::createCpioError(code, filename)`. -/
def PatcherError.createCpioError (code : ErrorCode) (filename : String) : PatcherError :=
  ⟨code, filename⟩

instance : Inhabited PatcherError := ⟨⟨ErrorCode.NoError, ""⟩⟩

/-! ## The archive store -/

/-- One archive entry: path, content and permission mode. -/
structure CpioEntry where
  name : String
  contents : Bytes
  mode : Nat
deriving DecidableEq, Repr

/-- Modelled from the spec: the class `CpioFile`, declared outside this file:
"ordered collection of (path, content-bytes, mode) entries". -/
structure CpioFile where
  files : List CpioEntry
deriving DecidableEq, Repr

/-- The external file system seen by `CpioFile::addFile`: `none` for a path
that cannot be read. -/
abbrev FileSystem := String → Option Bytes

namespace CpioFile

/-- Modelled from the spec: `exists(path) -> bool` of the archive store. -/
def existsFile (c : CpioFile) (name : String) : Bool :=
  c.files.any fun e => e.name == name

/-- Modelled from the spec: `read(path) -> bytes (empty if missing)`. -/
def contents (c : CpioFile) (name : String) : Bytes :=
  match c.files.find? fun e => e.name == name with
  | some e => e.contents
  | none => []

/-- Modelled from the spec: `write(path, bytes)`, replacing prior content. -/
def setContents (c : CpioFile) (name : String) (data : Bytes) : CpioFile :=
  ⟨c.files.map fun e => if e.name == name then { e with contents := data } else e⟩

/-- Modelled from the spec: `remove(path)`. -/
def remove (c : CpioFile) (name : String) : CpioFile :=
  ⟨c.files.filter fun e => !(e.name == name)⟩

/-- Modelled from the spec: `add(sourceFilePath, destPath, mode)`: "add the
source's bytes to the Archive at the destination path with the given mode,
overwriting any existing entry at that path". The Boolean is `false`, and the
archive unchanged, when the source cannot be read. -/
def addFile (fs : FileSystem) (c : CpioFile) (path name : String) (perms : Nat) :
    Bool × CpioFile :=
  match fs path with
  | none => (false, c)
  | some data => (true, ⟨(c.remove name).files ++ [⟨name, data, perms⟩]⟩)

end CpioFile

/-! ## Collaborators declared in other translation units -/

/-- Modelled from the spec: the class `PatcherPaths`; only the two asset
directories are used here. -/
structure PatcherPaths where
  scriptsDirectory : String
  initsDirectory : String
deriving DecidableEq, Repr

/-- Modelled from the spec: `QcomRamdiskPatcher::FstabArgs`, "a small
configuration record (set of named boolean/string options: force a mount
read-write, preserve original mount-point paths, override system/cache/data
mount-point paths)". A field is `none` until the caller assigns it. -/
structure FstabArgs where
  ArgForceCacheRw : Option Bool
  ArgKeepMountPoints : Option Bool
  ArgSystemMountPoint : Option String
  ArgCacheMountPoint : Option String
  ArgDataMountPoint : Option String
deriving DecidableEq, Repr

/-- A default-constructed `FstabArgs`: nothing assigned. -/
def FstabArgs.empty : FstabArgs := ⟨none, none, none, none, none⟩

/-- The three ways this file calls `QcomRamdiskPatcher::modifyFstab`:
`modifyFstab()`, `modifyFstab(true)` and `modifyFstab(args)`. -/
inductive FstabParam
  | noArgs
  | flag (b : Bool)
  | args (a : FstabArgs)
deriving DecidableEq, Repr

/-- What one rule-module operation leaves behind: its Boolean return value,
the archive after the call, and the value its patcher's `error()` returns
after the call. -/
structure StepResult where
  ok : Bool
  cpio : CpioFile
  error : PatcherError
deriving DecidableEq, Repr

/-- The class `CoreRamdiskPatcher` (declared elsewhere), as a parameter. -/
structure CoreRamdiskPatcher where
  patchRamdisk : CpioFile → StepResult

/-- The class `QcomRamdiskPatcher` (declared elsewhere), as a parameter.
`modifyInitQcomRc none` is the call without arguments. -/
structure QcomRamdiskPatcher where
  modifyInitRc : CpioFile → StepResult
  modifyInitQcomRc : Option (List String) → CpioFile → StepResult
  modifyFstab : FstabParam → CpioFile → StepResult
  modifyInitTargetRc : CpioFile → StepResult

/-- The class `GalaxyRamdiskPatcher` (declared elsewhere), as a parameter. Its
operations receive the version string given to its constructor. The two
constants `JellyBean` and `KitKat` are the "exactly two Release Variant
values" of the spec, hence distinct. -/
structure GalaxyRamdiskPatcher where
  JellyBean : String
  KitKat : String
  distinct : JellyBean ≠ KitKat
  geModifyInitRc : String → CpioFile → StepResult
  twModifyInitRc : String → CpioFile → StepResult
  twModifyInitTargetRc : String → CpioFile → StepResult
  getwModifyMsm8960LpmRc : String → CpioFile → StepResult
  twModifyUeventdRc : String → CpioFile → StepResult
  twModifyUeventdQcomRc : String → CpioFile → StepResult

/-- Everything a patcher instance borrows from its surroundings. -/
structure Env where
  pp : PatcherPaths
  fs : FileSystem
  core : CoreRamdiskPatcher
  qcom : QcomRamdiskPatcher
  galaxy : GalaxyRamdiskPatcher

/-- One invocation of a collaborator, with its arguments. -/
inductive Call
  | corePatchRamdisk
  | qcomModifyInitRc
  | qcomModifyInitQcomRc (additionalFiles : Option (List String))
  | qcomModifyFstab (p : FstabParam)
  | qcomModifyInitTargetRc
  | galaxyGeModifyInitRc
  | galaxyTwModifyInitRc
  | galaxyTwModifyInitTargetRc
  | galaxyGetwModifyMsm8960LpmRc
  | galaxyTwModifyUeventdRc
  | galaxyTwModifyUeventdQcomRc
  | cxlModifyInitTargetRc
  | cpioAddFile (path name : String) (perms : Nat)
  | cpioRemove (name : String)
deriving DecidableEq, Repr

/-- Whether the call is an asset injection or removal on the archive. -/
def Call.isAssetOp : Call → Bool
  | .cpioAddFile _ _ _ => true
  | .cpioRemove _ => true
  | _ => false

/-- Whether the call removes or adds the archive entry `name`. -/
def Call.touches (name : String) : Call → Bool
  | .cpioAddFile _ n _ => n == name
  | .cpioRemove n => n == name
  | _ => false

/-! ## The patcher state -/

/-- The class `JflteBaseRamdiskPatcher::Impl` (`pp` and `info` are constant
and live in `Env`), plus the ghost log `calls`. -/
structure Impl where
  cpio : CpioFile
  getwVersion : String
  error : PatcherError
  calls : List Call
deriving DecidableEq, Repr

def InitRc : String := "init.rc"
def InitTargetRc : String := "init.target.rc"
def UeventdRc : String := "ueventd.rc"
def UeventdQcomRc : String := "ueventd.qcom.rc"
def Msm8960LpmRc : String := "MSM8960_lpm.rc"

/-- The constructor `JflteBaseRamdiskPatcher::JflteBaseRamdiskPatcher`. -/
def JflteBaseRamdiskPatcher.new (cpio : CpioFile) : Impl :=
  { cpio := cpio, getwVersion := "", error := default, calls := [] }

/-- The accessor `JflteBaseRamdiskPatcher::error`. -/
def JflteBaseRamdiskPatcher.error (m : Impl) : PatcherError :=
  m.error

/-- The recurring block
`if (!patcher.op(..)) { m_impl->error = patcher.error(); return false; }`
followed by the rest `k` of the function body. -/
def ruleStep (call : Call) (op : CpioFile → StepResult) (m : Impl)
    (k : Impl → Bool × Impl) : Bool × Impl :=
  let r := op m.cpio
  let m1 : Impl := { m with cpio := r.cpio, calls := m.calls ++ [call] }
  if !r.ok then
    (false, { m1 with error := r.error })
  else
    k m1

/-- The statement `m_impl->cpio->addFile(path, name, perms);`: the return
value of `addFile` is discarded. -/
def Impl.addFile (E : Env) (m : Impl) (path name : String) (perms : Nat) : Impl :=
  { m with
    cpio := (m.cpio.addFile E.fs path name perms).2,
    calls := m.calls ++ [Call.cpioAddFile path name perms] }

/-- The statement `m_impl->cpio->remove(name);`. -/
def Impl.remove (m : Impl) (name : String) : Impl :=
  { m with cpio := m.cpio.remove name, calls := m.calls ++ [Call.cpioRemove name] }

/-! ## The noobdev target-init rewrite -/

def dualBootScript : Bytes := "init.dualboot.mounting.sh".toList
def multiBootScript : Bytes := "init.multiboot.mounting.sh".toList

/-- The loop body of `cxlModifyInitTargetRc`:
`if (line.find(dualBootScript) != npos) replace_all(line, dualBootScript, multiBootScript);` -/
def cxlPatchLine (line : Bytes) : Bytes :=
  if (find line dualBootScript).isSome then
    replace_all line dualBootScript multiBootScript
  else
    line

/-- The text transformation of `cxlModifyInitTargetRc`: split on the newline,
patch every line, join with the newline. -/
def cxlRewrite (strContents : Bytes) : Bytes :=
  let lines := split strContents '\n'
  let lines := lines.map cxlPatchLine
  join lines '\n'

/-- The method `JflteNoobdevRamdiskPatcher::cxlModifyInitTargetRc`. -/
def JflteNoobdevRamdiskPatcher.cxlModifyInitTargetRc (m : Impl) : Bool × Impl :=
  let contents := m.cpio.contents InitTargetRc
  if contents.isEmpty then
    (false, { m with
      error := PatcherError.createCpioError ErrorCode.CpioFileNotExistError InitTargetRc })
  else
    let strContents := cxlRewrite contents
    (true, { m with cpio := m.cpio.setContents InitTargetRc strContents })

/-! ## The four pipelines -/

/-- The method `JflteAOSPRamdiskPatcher::patchRamdisk`. -/
def JflteAOSPRamdiskPatcher.patchRamdisk (E : Env) (m : Impl) : Bool × Impl :=
  ruleStep Call.corePatchRamdisk E.core.patchRamdisk m fun m =>
  ruleStep Call.qcomModifyInitRc E.qcom.modifyInitRc m fun m =>
  ruleStep (Call.qcomModifyInitQcomRc none) (E.qcom.modifyInitQcomRc none) m fun m =>
  ruleStep (Call.qcomModifyFstab (FstabParam.flag true))
    (E.qcom.modifyFstab (FstabParam.flag true)) m fun m =>
  ruleStep Call.qcomModifyInitTargetRc E.qcom.modifyInitTargetRc m fun m =>
  let mountScript := E.pp.scriptsDirectory ++ "/jflte/mount.modem.sh"
  let m := m.addFile E mountScript "init.additional.sh" 0o755
  (true, m)

/-- The constructor `JflteGoogleEditionRamdiskPatcher::JflteGoogleEditionRamdiskPatcher`. -/
def JflteGoogleEditionRamdiskPatcher.new (E : Env) (cpio : CpioFile) : Impl :=
  let m := JflteBaseRamdiskPatcher.new cpio
  if m.cpio.existsFile Msm8960LpmRc then
    { m with getwVersion := E.galaxy.JellyBean }
  else
    { m with getwVersion := E.galaxy.KitKat }

/-- The method `JflteGoogleEditionRamdiskPatcher::patchRamdisk`. -/
def JflteGoogleEditionRamdiskPatcher.patchRamdisk (E : Env) (m : Impl) : Bool × Impl :=
  ruleStep Call.corePatchRamdisk E.core.patchRamdisk m fun m =>
  ruleStep Call.qcomModifyInitRc E.qcom.modifyInitRc m fun m =>
  ruleStep Call.galaxyGeModifyInitRc (E.galaxy.geModifyInitRc m.getwVersion) m fun m =>
  let qcomRcFiles := ([] : List String) ++ ["init.jgedlte.rc"]
  ruleStep (Call.qcomModifyInitQcomRc (some qcomRcFiles))
    (E.qcom.modifyInitQcomRc (some qcomRcFiles)) m fun m =>
  ruleStep (Call.qcomModifyFstab FstabParam.noArgs)
    (E.qcom.modifyFstab FstabParam.noArgs) m fun m =>
  ruleStep Call.qcomModifyInitTargetRc E.qcom.modifyInitTargetRc m fun m =>
  ruleStep Call.galaxyGetwModifyMsm8960LpmRc
    (E.galaxy.getwModifyMsm8960LpmRc m.getwVersion) m fun m =>
  if m.getwVersion == E.galaxy.KitKat then
    let m := m.remove "init"
    let newInit := E.pp.initsDirectory ++ "/init-kk44"
    let m := m.addFile E newInit "init" 0o755
    (true, m)
  else
    (true, m)

/-- The argument record built by `JflteNoobdevRamdiskPatcher::patchRamdisk`:
five assignments on a default-constructed `FstabArgs`. -/
def noobdevFstabArgs : FstabArgs :=
  let args := FstabArgs.empty
  let args := { args with ArgForceCacheRw := some true }
  let args := { args with ArgKeepMountPoints := some true }
  let args := { args with ArgSystemMountPoint := some "/raw-system" }
  let args := { args with ArgCacheMountPoint := some "/raw-cache" }
  let args := { args with ArgDataMountPoint := some "/raw-data" }
  args

/-- The method `JflteNoobdevRamdiskPatcher::patchRamdisk`. -/
def JflteNoobdevRamdiskPatcher.patchRamdisk (E : Env) (m : Impl) : Bool × Impl :=
  ruleStep Call.corePatchRamdisk E.core.patchRamdisk m fun m =>
  let args := noobdevFstabArgs
  ruleStep (Call.qcomModifyFstab (FstabParam.args args))
    (E.qcom.modifyFstab (FstabParam.args args)) m fun m =>
  let r := JflteNoobdevRamdiskPatcher.cxlModifyInitTargetRc
    { m with calls := m.calls ++ [Call.cxlModifyInitTargetRc] }
  if !r.1 then
    (false, r.2)
  else
    let m := r.2
    let mountScript := E.pp.scriptsDirectory ++ "/jflte/mount.modem.sh"
    let m := m.addFile E mountScript "init.additional.sh" 0o755
    (true, m)

/-- The constructor `JflteTouchWizRamdiskPatcher::JflteTouchWizRamdiskPatcher`. -/
def JflteTouchWizRamdiskPatcher.new (E : Env) (cpio : CpioFile) : Impl :=
  let m := JflteBaseRamdiskPatcher.new cpio
  if m.cpio.existsFile Msm8960LpmRc then
    { m with getwVersion := E.galaxy.JellyBean }
  else
    { m with getwVersion := E.galaxy.KitKat }

/-- The method `JflteTouchWizRamdiskPatcher::patchRamdisk`. -/
def JflteTouchWizRamdiskPatcher.patchRamdisk (E : Env) (m : Impl) : Bool × Impl :=
  ruleStep Call.corePatchRamdisk E.core.patchRamdisk m fun m =>
  ruleStep Call.qcomModifyInitRc E.qcom.modifyInitRc m fun m =>
  ruleStep Call.galaxyTwModifyInitRc (E.galaxy.twModifyInitRc m.getwVersion) m fun m =>
  ruleStep (Call.qcomModifyInitQcomRc none) (E.qcom.modifyInitQcomRc none) m fun m =>
  ruleStep (Call.qcomModifyFstab FstabParam.noArgs)
    (E.qcom.modifyFstab FstabParam.noArgs) m fun m =>
  ruleStep Call.qcomModifyInitTargetRc E.qcom.modifyInitTargetRc m fun m =>
  ruleStep Call.galaxyTwModifyInitTargetRc
    (E.galaxy.twModifyInitTargetRc m.getwVersion) m fun m =>
  ruleStep Call.galaxyGetwModifyMsm8960LpmRc
    (E.galaxy.getwModifyMsm8960LpmRc m.getwVersion) m fun m =>
  ruleStep Call.galaxyTwModifyUeventdRc (E.galaxy.twModifyUeventdRc m.getwVersion) m fun m =>
  ruleStep Call.galaxyTwModifyUeventdQcomRc
    (E.galaxy.twModifyUeventdQcomRc m.getwVersion) m fun m =>
  let mountScript := E.pp.scriptsDirectory ++ "/jflte/mount.modem.sh"
  let m := m.addFile E mountScript "init.additional.sh" 0o755
  if m.getwVersion == E.galaxy.KitKat then
    let m := m.remove "init"
    let newInit := E.pp.initsDirectory ++ "/jflte/tw44-init"
    let m := m.addFile E newInit "init" 0o755
    let newAdbd := E.pp.initsDirectory ++ "/jflte/tw44-adbd"
    let m := m.addFile E newAdbd "sbin/adbd" 0o755
    (true, m)
  else
    (true, m)

/-- The four ramdisk flavors handled by this file. -/
inductive Flavor
  | JflteAOSP
  | JflteGoogleEdition
  | JflteNoobdev
  | JflteTouchWiz
deriving DecidableEq, Repr

/-- Dispatch of the virtual method `patchRamdisk` on the flavor. -/
def patchRamdisk (E : Env) : Flavor → Impl → Bool × Impl
  | Flavor.JflteAOSP => JflteAOSPRamdiskPatcher.patchRamdisk E
  | Flavor.JflteGoogleEdition => JflteGoogleEditionRamdiskPatcher.patchRamdisk E
  | Flavor.JflteNoobdev => JflteNoobdevRamdiskPatcher.patchRamdisk E
  | Flavor.JflteTouchWiz => JflteTouchWizRamdiskPatcher.patchRamdisk E

/-- Construction of a patcher of the given flavor on an archive. -/
def construct (E : Env) : Flavor → CpioFile → Impl
  | Flavor.JflteAOSP => JflteBaseRamdiskPatcher.new
  | Flavor.JflteGoogleEdition => JflteGoogleEditionRamdiskPatcher.new E
  | Flavor.JflteNoobdev => JflteBaseRamdiskPatcher.new
  | Flavor.JflteTouchWiz => JflteTouchWizRamdiskPatcher.new E

/-! ## The pipelines as the specification words them

"For each supported ramdisk flavor, holds a fixed ordered list of Rule Module
operations; executes them in order, stopping at the first failure and
propagating its error; performs flavor-specific post-steps after all rule
steps succeed." These definitions follow that wording; the theorems below
compare them with the methods embedded above. -/

/-- One rule step of a pipeline: the call it logs and its effect. -/
structure Step where
  call : Call
  run : CpioFile → StepResult

/-- The method `cxlModifyInitTargetRc` seen as a rule step: its return value,
the archive it leaves and the error it recorded, when run on a freshly
constructed patcher owning the archive `c`. -/
def cxlStep (c : CpioFile) : StepResult :=
  let r := JflteNoobdevRamdiskPatcher.cxlModifyInitTargetRc (JflteBaseRamdiskPatcher.new c)
  ⟨r.1, r.2.cpio, r.2.error⟩

/-- The ordered rule steps of each flavor (spec section 4.2). `getwVersion` is
the release variant handed to the Galaxy rule module. -/
def ruleSteps (E : Env) (getwVersion : String) : Flavor → List Step
  | Flavor.JflteAOSP =>
    [ ⟨Call.corePatchRamdisk, E.core.patchRamdisk⟩,
      ⟨Call.qcomModifyInitRc, E.qcom.modifyInitRc⟩,
      ⟨Call.qcomModifyInitQcomRc none, E.qcom.modifyInitQcomRc none⟩,
      ⟨Call.qcomModifyFstab (FstabParam.flag true), E.qcom.modifyFstab (FstabParam.flag true)⟩,
      ⟨Call.qcomModifyInitTargetRc, E.qcom.modifyInitTargetRc⟩ ]
  | Flavor.JflteGoogleEdition =>
    [ ⟨Call.corePatchRamdisk, E.core.patchRamdisk⟩,
      ⟨Call.qcomModifyInitRc, E.qcom.modifyInitRc⟩,
      ⟨Call.galaxyGeModifyInitRc, E.galaxy.geModifyInitRc getwVersion⟩,
      ⟨Call.qcomModifyInitQcomRc (some ["init.jgedlte.rc"]),
        E.qcom.modifyInitQcomRc (some ["init.jgedlte.rc"])⟩,
      ⟨Call.qcomModifyFstab FstabParam.noArgs, E.qcom.modifyFstab FstabParam.noArgs⟩,
      ⟨Call.qcomModifyInitTargetRc, E.qcom.modifyInitTargetRc⟩,
      ⟨Call.galaxyGetwModifyMsm8960LpmRc, E.galaxy.getwModifyMsm8960LpmRc getwVersion⟩ ]
  | Flavor.JflteNoobdev =>
    [ ⟨Call.corePatchRamdisk, E.core.patchRamdisk⟩,
      ⟨Call.qcomModifyFstab (FstabParam.args
          ⟨some true, some true, some "/raw-system", some "/raw-cache", some "/raw-data"⟩),
        E.qcom.modifyFstab (FstabParam.args
          ⟨some true, some true, some "/raw-system", some "/raw-cache", some "/raw-data"⟩)⟩,
      ⟨Call.cxlModifyInitTargetRc, cxlStep⟩ ]
  | Flavor.JflteTouchWiz =>
    [ ⟨Call.corePatchRamdisk, E.core.patchRamdisk⟩,
      ⟨Call.qcomModifyInitRc, E.qcom.modifyInitRc⟩,
      ⟨Call.galaxyTwModifyInitRc, E.galaxy.twModifyInitRc getwVersion⟩,
      ⟨Call.qcomModifyInitQcomRc none, E.qcom.modifyInitQcomRc none⟩,
      ⟨Call.qcomModifyFstab FstabParam.noArgs, E.qcom.modifyFstab FstabParam.noArgs⟩,
      ⟨Call.qcomModifyInitTargetRc, E.qcom.modifyInitTargetRc⟩,
      ⟨Call.galaxyTwModifyInitTargetRc, E.galaxy.twModifyInitTargetRc getwVersion⟩,
      ⟨Call.galaxyGetwModifyMsm8960LpmRc, E.galaxy.getwModifyMsm8960LpmRc getwVersion⟩,
      ⟨Call.galaxyTwModifyUeventdRc, E.galaxy.twModifyUeventdRc getwVersion⟩,
      ⟨Call.galaxyTwModifyUeventdQcomRc, E.galaxy.twModifyUeventdQcomRc getwVersion⟩ ]

/-- Index (from 0) of the first rule step that fails when the steps are run
in order from the archive `c`; `none` when every step succeeds. -/
def firstFailure : List Step → CpioFile → Option Nat
  | [], _ => none
  | s :: rest, c =>
    if (s.run c).ok then (firstFailure rest (s.run c).cpio).map (· + 1) else some 0

/-- The archive obtained by applying the steps in order, whatever they return. -/
def applySteps : List Step → CpioFile → CpioFile
  | [], c => c
  | s :: rest, c => applySteps rest (s.run c).cpio

/-- The post-steps of each flavor: asset injection and removal, run only
after every rule step has succeeded. -/
def postSteps (E : Env) : Flavor → Impl → Impl
  | Flavor.JflteAOSP, m =>
    m.addFile E (E.pp.scriptsDirectory ++ "/jflte/mount.modem.sh") "init.additional.sh" 0o755
  | Flavor.JflteGoogleEdition, m =>
    if m.getwVersion == E.galaxy.KitKat then
      (m.remove "init").addFile E (E.pp.initsDirectory ++ "/init-kk44") "init" 0o755
    else m
  | Flavor.JflteNoobdev, m =>
    m.addFile E (E.pp.scriptsDirectory ++ "/jflte/mount.modem.sh") "init.additional.sh" 0o755
  | Flavor.JflteTouchWiz, m =>
    let m := m.addFile E (E.pp.scriptsDirectory ++ "/jflte/mount.modem.sh")
      "init.additional.sh" 0o755
    if m.getwVersion == E.galaxy.KitKat then
      (((m.remove "init").addFile E (E.pp.initsDirectory ++ "/jflte/tw44-init") "init" 0o755
        ).addFile E (E.pp.initsDirectory ++ "/jflte/tw44-adbd") "sbin/adbd" 0o755)
    else m

/-- Run the steps in order, stop at the first failure keeping its error,
and continue with `k` when all succeed. -/
def runSteps : List Step → (Impl → Bool × Impl) → Impl → Bool × Impl
  | [], k, m => k m
  | s :: rest, k, m => ruleStep s.call s.run m (runSteps rest k)

/-- The pipeline orchestrator of the spec: the flavor's rule steps, then its
post-steps. -/
def runPipeline (E : Env) (flavor : Flavor) (m : Impl) : Bool × Impl :=
  runSteps (ruleSteps E m.getwVersion flavor) (fun m1 => (true, postSteps E flavor m1)) m

/-- The documented call sequence of a successful run of each flavor, up to
and including the mount-helper injection. -/
def documentedCalls (pp : PatcherPaths) : Flavor → List Call
  | Flavor.JflteAOSP =>
    [ Call.corePatchRamdisk, Call.qcomModifyInitRc, Call.qcomModifyInitQcomRc none,
      Call.qcomModifyFstab (FstabParam.flag true), Call.qcomModifyInitTargetRc,
      Call.cpioAddFile (pp.scriptsDirectory ++ "/jflte/mount.modem.sh")
        "init.additional.sh" 0o755 ]
  | Flavor.JflteGoogleEdition =>
    [ Call.corePatchRamdisk, Call.qcomModifyInitRc, Call.galaxyGeModifyInitRc,
      Call.qcomModifyInitQcomRc (some ["init.jgedlte.rc"]),
      Call.qcomModifyFstab FstabParam.noArgs, Call.qcomModifyInitTargetRc,
      Call.galaxyGetwModifyMsm8960LpmRc ]
  | Flavor.JflteNoobdev =>
    [ Call.corePatchRamdisk,
      Call.qcomModifyFstab (FstabParam.args
        { ArgForceCacheRw := some true, ArgKeepMountPoints := some true,
          ArgSystemMountPoint := some "/raw-system", ArgCacheMountPoint := some "/raw-cache",
          ArgDataMountPoint := some "/raw-data" }),
      Call.cxlModifyInitTargetRc,
      Call.cpioAddFile (pp.scriptsDirectory ++ "/jflte/mount.modem.sh")
        "init.additional.sh" 0o755 ]
  | Flavor.JflteTouchWiz =>
    [ Call.corePatchRamdisk, Call.qcomModifyInitRc, Call.galaxyTwModifyInitRc,
      Call.qcomModifyInitQcomRc none, Call.qcomModifyFstab FstabParam.noArgs,
      Call.qcomModifyInitTargetRc, Call.galaxyTwModifyInitTargetRc,
      Call.galaxyGetwModifyMsm8960LpmRc, Call.galaxyTwModifyUeventdRc,
      Call.galaxyTwModifyUeventdQcomRc,
      Call.cpioAddFile (pp.scriptsDirectory ++ "/jflte/mount.modem.sh")
        "init.additional.sh" 0o755 ]

/-- The calls that replace the stock binaries, made at the end of a successful
run when the stored release variant is `KitKat`. -/
def releaseCalls (pp : PatcherPaths) : Flavor → List Call
  | Flavor.JflteAOSP => []
  | Flavor.JflteGoogleEdition =>
    [ Call.cpioRemove "init",
      Call.cpioAddFile (pp.initsDirectory ++ "/init-kk44") "init" 0o755 ]
  | Flavor.JflteNoobdev => []
  | Flavor.JflteTouchWiz =>
    [ Call.cpioRemove "init",
      Call.cpioAddFile (pp.initsDirectory ++ "/jflte/tw44-init") "init" 0o755,
      Call.cpioAddFile (pp.initsDirectory ++ "/jflte/tw44-adbd") "sbin/adbd" 0o755 ]

/-- The entries of the archive stored under `name`, in archive order. -/
def CpioFile.entriesNamed (c : CpioFile) (name : String) : List CpioEntry :=
  c.files.filter fun e => e.name == name

/-- The effect of the post-steps of each flavor on the archive, written with
the archive-store operations alone: inject the mount helper (all flavors but
Google Edition) and, when the release variant is `KitKat`, drop `init` and
inject the replacement binaries (Google Edition and TouchWiz). The result of
each `add` is not consulted. -/
def injectAssets (E : Env) (getwVersion : String) : Flavor → CpioFile → CpioFile
  | Flavor.JflteAOSP, c =>
    (c.addFile E.fs (E.pp.scriptsDirectory ++ "/jflte/mount.modem.sh")
      "init.additional.sh" 0o755).2
  | Flavor.JflteGoogleEdition, c =>
    if getwVersion = E.galaxy.KitKat then
      ((c.remove "init").addFile E.fs (E.pp.initsDirectory ++ "/init-kk44") "init" 0o755).2
    else c
  | Flavor.JflteNoobdev, c =>
    (c.addFile E.fs (E.pp.scriptsDirectory ++ "/jflte/mount.modem.sh")
      "init.additional.sh" 0o755).2
  | Flavor.JflteTouchWiz, c =>
    let c1 := (c.addFile E.fs (E.pp.scriptsDirectory ++ "/jflte/mount.modem.sh")
      "init.additional.sh" 0o755).2
    if getwVersion = E.galaxy.KitKat then
      let c2 := c1.remove "init"
      let c3 := (c2.addFile E.fs (E.pp.initsDirectory ++ "/jflte/tw44-init") "init" 0o755).2
      (c3.addFile E.fs (E.pp.initsDirectory ++ "/jflte/tw44-adbd") "sbin/adbd" 0o755).2
    else c1

/-! ## Sample collaborators and archives -/

/-- A rule operation that succeeds and leaves a marker entry behind. -/
def markStep (name : String) (c : CpioFile) : StepResult :=
  ⟨true, ⟨c.files ++ [⟨name, [], 0o644⟩]⟩, default⟩

/-- A rule operation that succeeds without touching the archive. -/
def okStep (c : CpioFile) : StepResult :=
  ⟨true, c, default⟩

/-- A rule operation that drops the entry `name` and then fails with `e`. -/
def failStep (name : String) (e : PatcherError) (c : CpioFile) : StepResult :=
  ⟨false, c.remove name, e⟩

def samplePaths : PatcherPaths :=
  { scriptsDirectory := "/data/scripts", initsDirectory := "/data/inits" }

/-- A file system holding every asset the four pipelines inject. -/
def sampleFs : FileSystem := fun path =>
  if path == "/data/scripts/jflte/mount.modem.sh" then some "#!/sbin/sh\n".toList
  else if path == "/data/inits/init-kk44" then some "init-kk44".toList
  else if path == "/data/inits/jflte/tw44-init" then some "tw44-init".toList
  else if path == "/data/inits/jflte/tw44-adbd" then some "tw44-adbd".toList
  else none

def sampleCore : CoreRamdiskPatcher :=
  { patchRamdisk := markStep "sbin/busybox-static" }

def sampleQcom : QcomRamdiskPatcher :=
  { modifyInitRc := okStep
    modifyInitQcomRc := fun _ => okStep
    modifyFstab := fun _ => okStep
    modifyInitTargetRc := okStep }

/-- A Qualcomm rule module whose fstab rewrite drops `fstab.qcom` and fails. -/
def sampleQcomFstabFails : QcomRamdiskPatcher :=
  { sampleQcom with
    modifyFstab := fun _ =>
      failStep "fstab.qcom" (PatcherError.createCpioError (ErrorCode.Other 7) "fstab.qcom") }

def sampleGalaxy : GalaxyRamdiskPatcher :=
  { JellyBean := "jb43"
    KitKat := "kk44"
    distinct := by decide
    geModifyInitRc := fun _ => okStep
    twModifyInitRc := fun _ => okStep
    twModifyInitTargetRc := fun _ => okStep
    getwModifyMsm8960LpmRc := fun _ => okStep
    twModifyUeventdRc := fun _ => okStep
    twModifyUeventdQcomRc := fun _ => okStep }

/-- Every rule step succeeds and every asset is readable. -/
def sampleEnv : Env :=
  { pp := samplePaths, fs := sampleFs, core := sampleCore, qcom := sampleQcom,
    galaxy := sampleGalaxy }

/-- Every rule step succeeds and no asset is readable. -/
def sampleEnvNoAssets : Env :=
  { sampleEnv with fs := fun _ => none }

/-- The fstab rewrite fails; everything else succeeds. -/
def sampleEnvFstabFails : Env :=
  { sampleEnv with qcom := sampleQcomFstabFails }

/-- A ramdisk of the older release: it holds `MSM8960_lpm.rc`. -/
def sampleArchive : CpioFile :=
  ⟨[ ⟨"init", "stock-init".toList, 0o750⟩,
     ⟨"fstab.qcom", "/dev/block/mmcblk0p16 /system ext4 ro wait\n".toList, 0o640⟩,
     ⟨"init.target.rc",
      "on boot\nexec /sbin/init.dualboot.mounting.sh arg1\n\nservice foo /bin/foo\n".toList,
      0o750⟩,
     ⟨"MSM8960_lpm.rc", "on charger\n".toList, 0o750⟩ ]⟩

/-- A ramdisk of the newer release: no `MSM8960_lpm.rc`. -/
def sampleArchiveNewer : CpioFile :=
  sampleArchive.remove "MSM8960_lpm.rc"

/-- A ramdisk of the newer release that already holds an `init.additional.sh`
and a stock `sbin/adbd`. -/
def sampleArchiveStale : CpioFile :=
  ⟨sampleArchiveNewer.files ++
    [ ⟨"init.additional.sh", "stale".toList, 0o700⟩,
      ⟨"sbin/adbd", "stock-adbd".toList, 0o750⟩ ]⟩

/-- A ramdisk without `init.target.rc`. -/
def sampleArchiveNoTarget : CpioFile :=
  sampleArchive.remove "init.target.rc"

/-! ## Lemmas on the text primitives -/

theorem replaceAllFrom_skip (search format a t : Bytes) :
    replaceAllFrom search format a.length (a ++ t) = replaceAllFrom search format 0 t := by
  induction a with
  | nil => simp
  | cons x a ih => simpa [replaceAllFrom] using ih

theorem replaceAllFrom_zero_hit (search format : Bytes) (c : Char) (cs : Bytes)
    (hs : search ≠ []) (h : search <+: c :: cs) :
    replaceAllFrom search format 0 (c :: cs)
      = format ++ replaceAllFrom search format (search.length - 1) cs := by
  simp [replaceAllFrom, h, hs]

theorem replaceAllFrom_zero_miss (search format : Bytes) (c : Char) (cs : Bytes)
    (h : ¬ search <+: c :: cs) :
    replaceAllFrom search format 0 (c :: cs) = c :: replaceAllFrom search format 0 cs := by
  simp [replaceAllFrom, h]

theorem replace_all_nil (search format : Bytes) : replace_all [] search format = [] := by
  simp [replace_all, replaceAllFrom]

theorem replace_all_hit (search format t : Bytes) (h : search ≠ []) :
    replace_all (search ++ t) search format = format ++ replace_all t search format := by
  obtain ⟨p, ps, rfl⟩ := List.exists_cons_of_ne_nil h
  have := replaceAllFrom_skip (p :: ps) format ps t
  simp [replace_all, replaceAllFrom, this]

theorem replace_all_miss (search format : Bytes) (c : Char) (cs : Bytes)
    (h : ¬ search <+: c :: cs) :
    replace_all (c :: cs) search format = c :: replace_all cs search format := by
  simp [replace_all, replaceAllFrom, h]

theorem scan_induction (search : Bytes) (hs : search ≠ []) (motive : Bytes → Prop)
    (nil : motive [])
    (hit : ∀ t, motive t → motive (search ++ t))
    (miss : ∀ c cs, ¬ search <+: c :: cs → motive cs → motive (c :: cs)) :
    ∀ s, motive s := by
  intro s
  generalize h : s.length = n
  induction n using Nat.strong_induction_on generalizing s with
  | _ n ih =>
    cases s with
    | nil => exact nil
    | cons c cs =>
      by_cases hp : search <+: c :: cs
      · obtain ⟨t, ht⟩ := hp
        rw [← ht]
        apply hit
        apply ih t.length _ t rfl
        have h1 : (search ++ t).length = n := by rw [ht]; exact h
        have h2 : 0 < search.length := List.length_pos.mpr hs
        simp at h1; omega
      · apply miss c cs hp
        apply ih cs.length _ cs rfl
        simp at h; omega

theorem find_eq_none_iff (s pat : Bytes) :
    find s pat = none ↔ ¬ pat <:+: s := by
  induction s with
  | nil => 
    cases pat <;> simp [find]
  | cons c cs ih =>
    simp only [find]
    by_cases hp : pat <+: c :: cs
    · simp [hp]
      exact hp.isInfix
    · simp [hp, ih, List.infix_cons_iff]

theorem replace_all_of_find_none (s search format : Bytes) (h : find s search = none) :
    replace_all s search format = s := by
  rw [find_eq_none_iff] at h
  induction s with
  | nil => exact replace_all_nil _ _
  | cons c cs ih =>
    have h1 : ¬ search <+: c :: cs := fun hp => h hp.isInfix
    have h2 : ¬ search <:+: cs := fun hi => h (List.infix_cons hi)
    rw [replace_all_miss _ _ _ _ h1, ih h2]

theorem cxlPatchLine_eq (line : Bytes) :
    cxlPatchLine line = replace_all line dualBootScript multiBootScript := by
  unfold cxlPatchLine
  split
  · rfl
  · rename_i h
    rw [replace_all_of_find_none]
    simpa using h

theorem prefix_of_prefix_append_sep (search l1 l2 : Bytes) (sep : Char)
    (hsep : sep ∉ search) (h : search <+: l1 ++ sep :: l2) : search <+: l1 := by
  rcases List.prefix_or_prefix_of_prefix h (List.prefix_append l1 (sep :: l2)) with h1 | h1
  · exact h1
  · obtain ⟨r, hr⟩ := h1
    rw [← hr, List.prefix_append_right_inj] at h
    cases r with
    | nil => simp at hr; rw [hr]
    | cons x r =>
      rw [List.cons_prefix_cons] at h
      exfalso; apply hsep
      rw [← hr, ← h.1]; simp

theorem replaceAllFrom_sep (search format : Bytes) (sep : Char) (hs : search ≠ [])
    (hsep : sep ∉ search) (l1 : Bytes) :
    ∀ (k : Nat) (l2 : Bytes), sep ∉ l1 → k ≤ l1.length →
      replaceAllFrom search format k (l1 ++ sep :: l2)
        = replaceAllFrom search format k l1 ++ sep :: replaceAllFrom search format 0 l2 := by
  induction l1 with
  | nil =>
    intro k l2 _ hk
    have hk0 : k = 0 := by simpa using hk
    subst hk0
    have hp : ¬ search <+: sep :: l2 := by
      intro hp
      have := prefix_of_prefix_append_sep search [] l2 sep hsep (by simpa using hp)
      exact hs (List.prefix_nil.mp this)
    simp [replaceAllFrom, hp]
  | cons c t ih =>
    intro k l2 hmem hk
    have hmem1 : sep ∉ t := fun hx => hmem (List.mem_cons_of_mem _ hx)
    cases k with
    | succ k =>
      simp only [List.cons_append, replaceAllFrom]
      exact ih k l2 hmem1 (by simpa using hk)
    | zero =>
      by_cases hp : search <+: c :: t
      · have hp2 : search <+: c :: (t ++ sep :: l2) := by
          have := hp.trans (List.prefix_append (c :: t) (sep :: l2))
          simpa using this
        have hlen : search.length - 1 ≤ t.length := by
          have := hp.length_le
          simp at this; omega
        rw [List.cons_append, replaceAllFrom_zero_hit _ _ _ _ hs hp2,
          replaceAllFrom_zero_hit _ _ _ _ hs hp, ih _ l2 hmem1 hlen, List.append_assoc]
      · have hp2 : ¬ search <+: c :: (t ++ sep :: l2) := by
          intro h
          exact hp (prefix_of_prefix_append_sep search (c :: t) l2 sep hsep (by simpa using h))
        rw [List.cons_append, replaceAllFrom_zero_miss _ _ _ _ hp2,
          replaceAllFrom_zero_miss _ _ _ _ hp, ih 0 l2 hmem1 (Nat.zero_le _), List.cons_append]

theorem join_cons_cons (l l1 : Bytes) (ls : List Bytes) (sep : Char) :
    join (l :: l1 :: ls) sep = l ++ sep :: join (l1 :: ls) sep := by
  simp [join, List.intercalate, List.intersperse]

theorem join_singleton (l : Bytes) (sep : Char) : join [l] sep = l := by
  simp [join, List.intercalate]

theorem replace_all_join (search format : Bytes) (sep : Char) (hs : search ≠ [])
    (hsep : sep ∉ search) (l : Bytes) (ls : List Bytes) :
    (∀ x ∈ l :: ls, sep ∉ x) →
      replace_all (join (l :: ls) sep) search format
        = join ((l :: ls).map fun x => replace_all x search format) sep := by
  induction ls generalizing l with
  | nil => intro _; simp [join_singleton]
  | cons l1 ls ih =>
    intro h
    rw [join_cons_cons, List.map_cons, List.map_cons, join_cons_cons]
    have h0 : sep ∉ l := h l (List.mem_cons_self _ _)
    have := replaceAllFrom_sep search format sep hs hsep l 0 (join (l1 :: ls) sep) h0
      (Nat.zero_le _)
    unfold replace_all at ih ⊢
    rw [this, ih l1 (fun x hx => h x (List.mem_cons_of_mem _ hx))]
    rfl

theorem not_mem_of_mem_split (sep : Char) (s : Bytes) :
    ∀ l ∈ split s sep, sep ∉ l := by
  unfold split List.splitOn
  induction s with
  | nil => simp [List.splitOnP_nil]
  | cons c cs ih =>
    rw [List.splitOnP_cons]
    split
    · rename_i hc
      intro l hl
      rcases List.mem_cons.mp hl with h | h
      · subst h; simp
      · exact ih l h
    · rename_i hc
      intro l hl
      cases hcs : List.splitOnP (fun x => x == sep) cs with
      | nil => simp [hcs, List.modifyHead] at hl
      | cons hd tl =>
        rw [hcs] at ih hl
        simp only [List.modifyHead] at hl
        rcases List.mem_cons.mp hl with h | h
        · subst h
          intro hmem
          rcases List.mem_cons.mp hmem with h1 | h1
          · apply hc; simp [h1]
          · exact ih hd (List.mem_cons_self _ _) h1
        · exact ih l (List.mem_cons_of_mem _ h)

theorem split_ne_nil (sep : Char) (s : Bytes) : split s sep ≠ [] := by
  unfold split List.splitOn
  exact List.splitOnP_ne_nil _ _

theorem join_split (sep : Char) (s : Bytes) : join (split s sep) sep = s := by
  unfold join split
  exact List.intercalate_splitOn s sep

theorem dualBootScript_ne_nil : dualBootScript ≠ [] := by decide

theorem newline_not_mem_dualBootScript : '\n' ∉ dualBootScript := by decide

theorem cxlRewrite_eq (s : Bytes) :
    cxlRewrite s = replace_all s dualBootScript multiBootScript := by
  unfold cxlRewrite
  have hfun : cxlPatchLine = fun x => replace_all x dualBootScript multiBootScript :=
    funext cxlPatchLine_eq
  simp only [hfun]
  have hmem := not_mem_of_mem_split '\n' s
  have hne := split_ne_nil '\n' s
  have hjs := join_split '\n' s
  cases hsp : split s '\n' with
  | nil => exact absurd hsp hne
  | cons l ls =>
    rw [hsp] at hmem hjs
    rw [← replace_all_join _ _ _ dualBootScript_ne_nil newline_not_mem_dualBootScript l ls hmem,
      hjs]

theorem prefix_replace_all (search format : Bytes) (hs : search ≠ []) (s : Bytes) :
    ∀ q : Bytes, q <+: replace_all s search format →
      q <+: s ∨ ∃ a b, q = a ++ b ∧ b ≠ [] ∧ (b <+: format ∨ format <+: b) := by
  refine scan_induction search hs
    (fun s => ∀ q : Bytes, q <+: replace_all s search format →
      q <+: s ∨ ∃ a b, q = a ++ b ∧ b ≠ [] ∧ (b <+: format ∨ format <+: b)) ?_ ?_ ?_ s
  · intro q hq
    rw [replace_all_nil] at hq
    exact Or.inl hq
  · intro t _ q hq
    rw [replace_all_hit _ _ _ hs] at hq
    cases q with
    | nil => exact Or.inl (List.nil_prefix)
    | cons x q =>
      right
      exact ⟨[], x :: q, rfl, by simp,
        List.prefix_or_prefix_of_prefix hq (List.prefix_append _ _)⟩
  · intro c cs hmiss ih q hq
    rw [replace_all_miss _ _ _ _ hmiss] at hq
    cases q with
    | nil => exact Or.inl (List.nil_prefix)
    | cons x q =>
      rw [List.cons_prefix_cons] at hq
      obtain ⟨hx, hq⟩ := hq
      subst hx
      rcases ih q hq with h | ⟨a, b, hab, hb, hR⟩
      · left
        exact (List.prefix_cons_inj x).mpr h
      · right
        exact ⟨x :: a, b, by rw [hab]; rfl, hb, hR⟩

theorem not_infix_append (pat r x : Bytes)
    (hr : ∀ k < r.length, ¬ pat <+: r.drop k ++ x) (hx : ¬ pat <:+: x) :
    ¬ pat <:+: r ++ x := by
  induction r with
  | nil => simpa using hx
  | cons c r ih =>
    rw [List.cons_append, List.infix_cons_iff]
    rintro (h | h)
    · exact hr 0 (by simp) (by simpa using h)
    · refine ih (fun k hk => ?_) h
      have := hr (k + 1) (by simpa using hk)
      simpa using this

theorem multiBoot_no_overlap :
    ∀ k < multiBootScript.length,
      ¬ (dualBootScript <+: multiBootScript.drop k ∨ multiBootScript.drop k <+: dualBootScript) := by
  decide

theorem dualBoot_tail_no_overlap :
    ∀ k < dualBootScript.tail.length,
      ¬ (dualBootScript.tail.drop k <+: multiBootScript
          ∨ multiBootScript <+: dualBootScript.tail.drop k) := by
  decide

theorem dualBoot_unbordered :
    ∀ k < dualBootScript.tail.length,
      ¬ (dualBootScript <+: dualBootScript.tail.drop k
          ∨ dualBootScript.tail.drop k <+: dualBootScript) := by
  decide

theorem tail_prefix_of_prefix_cons (pat : Bytes) (c : Char) (x : Bytes)
    (h : pat <+: c :: x) : pat.tail <+: x := by
  cases pat with
  | nil => exact List.nil_prefix
  | cons p ps => exact (List.cons_prefix_cons.mp h).2

theorem prefix_cons_of_tail (pat : Bytes) (c : Char) (x y : Bytes)
    (h : pat <+: c :: x) (ht : pat.tail <+: y) : pat <+: c :: y := by
  cases pat with
  | nil => exact List.nil_prefix
  | cons p ps => exact List.cons_prefix_cons.mpr ⟨(List.cons_prefix_cons.mp h).1, ht⟩

theorem not_infix_replace_all (s : Bytes) :
    ¬ dualBootScript <:+: replace_all s dualBootScript multiBootScript := by
  refine scan_induction dualBootScript dualBootScript_ne_nil
    (fun s => ¬ dualBootScript <:+: replace_all s dualBootScript multiBootScript) ?_ ?_ ?_ s
  · beta_reduce
    rw [replace_all_nil]
    intro h
    exact dualBootScript_ne_nil (List.infix_nil.mp h)
  · intro t ih
    rw [replace_all_hit _ _ _ dualBootScript_ne_nil]
    refine not_infix_append _ _ _ (fun k hk hp => ?_) ih
    exact multiBoot_no_overlap k hk
      (List.prefix_or_prefix_of_prefix hp (List.prefix_append _ _))
  · intro c cs hmiss ih
    rw [replace_all_miss _ _ _ _ hmiss, List.infix_cons_iff]
    rintro (hp | hi)
    · have hps := tail_prefix_of_prefix_cons _ _ _ hp
      rcases prefix_replace_all _ _ dualBootScript_ne_nil cs _ hps with h | ⟨a, b, hab, hb, hR⟩
      · exact hmiss (prefix_cons_of_tail _ _ _ _ hp h)
      · have hk : a.length < dualBootScript.tail.length := by
          rw [hab, List.length_append]
          have := List.length_pos.mpr hb
          omega
        have hdrop : dualBootScript.tail.drop a.length = b := by
          rw [hab, List.drop_left]
        have := dualBoot_tail_no_overlap a.length hk
        rw [hdrop] at this
        exact this hR
    · exact ih hi

theorem find_replace_all (s : Bytes) :
    find (replace_all s dualBootScript multiBootScript) dualBootScript = none :=
  (find_eq_none_iff _ _).mpr (not_infix_replace_all s)

theorem replace_all_idem (s : Bytes) :
    replace_all (replace_all s dualBootScript multiBootScript) dualBootScript multiBootScript
      = replace_all s dualBootScript multiBootScript :=
  replace_all_of_find_none _ _ _ (find_replace_all s)

theorem mem_replace_all (search format : Bytes) (hs : search ≠ []) (x : Char) (s : Bytes) :
    x ∈ replace_all s search format → x ∈ s ∨ x ∈ format := by
  refine scan_induction search hs
    (fun s => x ∈ replace_all s search format → x ∈ s ∨ x ∈ format) ?_ ?_ ?_ s
  · beta_reduce
    rw [replace_all_nil]; simp
  · intro t ih h
    rw [replace_all_hit _ _ _ hs, List.mem_append] at h
    rcases h with h | h
    · exact Or.inr h
    · rcases ih h with h1 | h1
      · exact Or.inl (List.mem_append_right _ h1)
      · exact Or.inr h1
  · intro c cs hmiss ih h
    rw [replace_all_miss _ _ _ _ hmiss, List.mem_cons] at h
    rcases h with h | h
    · exact Or.inl (by rw [h]; exact List.mem_cons_self _ _)
    · rcases ih h with h1 | h1
      · exact Or.inl (List.mem_cons_of_mem _ h1)
      · exact Or.inr h1

theorem countOcc_append_of_no_match (pat a t : Bytes)
    (h : ∀ k < a.length, ¬ pat <+: a.drop k ++ t) :
    countOcc pat (a ++ t) = countOcc pat t := by
  induction a with
  | nil => rfl
  | cons c a ih =>
    have h0 : ¬ pat <+: c :: (a ++ t) := by simpa using h 0 (by simp)
    rw [List.cons_append, countOcc]
    simp only [List.isPrefixOf_iff_prefix, h0, if_false]
    rw [Nat.zero_add]
    exact ih (fun k hk => by simpa using h (k + 1) (by simpa using hk))

theorem countOcc_self_append (pat t : Bytes) (hs : pat ≠ [])
    (h : ∀ k < pat.tail.length, ¬ pat <+: pat.tail.drop k ++ t) :
    countOcc pat (pat ++ t) = countOcc pat t + 1 := by
  cases pat with
  | nil => exact absurd rfl hs
  | cons p ps =>
    have hpre : p :: ps <+: p :: (ps ++ t) := by
      rw [← List.cons_append]; exact List.prefix_append _ _
    rw [List.cons_append, countOcc]
    simp only [List.isPrefixOf_iff_prefix, hpre, if_true]
    have h2 := countOcc_append_of_no_match (p :: ps) ps t h
    rw [h2, Nat.add_comm]

theorem countOcc_dualBoot_append (t : Bytes) :
    countOcc dualBootScript (dualBootScript ++ t) = countOcc dualBootScript t + 1 := by
  apply countOcc_self_append _ _ dualBootScript_ne_nil
  intro k hk hp
  exact dualBoot_unbordered k hk
    (List.prefix_or_prefix_of_prefix hp (List.prefix_append _ _))

theorem length_replace_all (s : Bytes) :
    (replace_all s dualBootScript multiBootScript).length
      = s.length + countOcc dualBootScript s := by
  refine scan_induction dualBootScript dualBootScript_ne_nil
    (fun s => (replace_all s dualBootScript multiBootScript).length
      = s.length + countOcc dualBootScript s) ?_ ?_ ?_ s
  · beta_reduce
    rw [replace_all_nil]; rfl
  · intro t ih
    rw [replace_all_hit _ _ _ dualBootScript_ne_nil, List.length_append, ih,
      countOcc_dualBoot_append, List.length_append]
    have : multiBootScript.length = dualBootScript.length + 1 := by decide
    omega
  · intro c cs hmiss ih
    rw [replace_all_miss _ _ _ _ hmiss, List.length_cons, ih, countOcc]
    simp only [List.isPrefixOf_iff_prefix, hmiss, if_false, List.length_cons]
    omega

theorem newline_not_mem_cxlPatchLine (line : Bytes) (h : '\n' ∉ line) :
    '\n' ∉ cxlPatchLine line := by
  rw [cxlPatchLine_eq]
  intro hm
  rcases mem_replace_all _ _ dualBootScript_ne_nil _ _ hm with h1 | h1
  · exact h h1
  · revert h1; decide

theorem split_cxlRewrite (s : Bytes) :
    split (cxlRewrite s) '\n' = (split s '\n').map cxlPatchLine := by
  unfold cxlRewrite
  simp only [join, split]
  apply List.splitOn_intercalate
  · intro l hl
    obtain ⟨l0, hl0, rfl⟩ := List.mem_map.mp hl
    exact newline_not_mem_cxlPatchLine l0 (not_mem_of_mem_split '\n' s l0 hl0)
  · intro h
    exact split_ne_nil '\n' s (List.map_eq_nil_iff.mp h)

/-! ## Lemmas on the archive store -/

theorem contents_of_not_existsFile (c : CpioFile) (name : String)
    (h : c.existsFile name = false) : c.contents name = [] := by
  unfold CpioFile.existsFile at h
  unfold CpioFile.contents
  have : c.files.find? (fun e => e.name == name) = none := by
    rw [List.find?_eq_none]
    intro e he
    have := (List.any_eq_false.mp h) e he
    simpa using this
  rw [this]

theorem existsFile_of_contents_ne_nil (c : CpioFile) (name : String)
    (h : c.contents name ≠ []) : c.existsFile name = true := by
  by_contra hne
  exact h (contents_of_not_existsFile c name (by simpa using hne))

theorem contents_setContents (c : CpioFile) (name : String) (data : Bytes)
    (h : c.existsFile name = true) : (c.setContents name data).contents name = data := by
  obtain ⟨files⟩ := c
  unfold CpioFile.existsFile at h
  unfold CpioFile.contents CpioFile.setContents
  simp only at h ⊢
  induction files with
  | nil => simp at h
  | cons e es ih =>
    by_cases he : e.name = name
    · simp [List.find?, he]
    · have h2 : es.any (fun e => e.name == name) = true := by
        simpa [List.any_cons, he] using h
      have ih2 := ih h2
      simp only [List.map_cons, List.find?_cons] at ih2 ⊢
      have hb : (e.name == name) = false := by simpa using he
      simp only [hb, Bool.false_eq_true, if_false]
      exact ih2

theorem setContents_setContents (c : CpioFile) (name : String) (d1 d2 : Bytes) :
    (c.setContents name d1).setContents name d2 = c.setContents name d2 := by
  obtain ⟨files⟩ := c
  unfold CpioFile.setContents
  simp only [List.map_map, CpioFile.mk.injEq]
  apply List.map_congr_left
  intro e _
  by_cases he : e.name = name <;> simp [he]

theorem existsFile_iff (c : CpioFile) (name : String) :
    c.existsFile name = true ↔ ∃ e ∈ c.files, e.name = name := by
  unfold CpioFile.existsFile
  simp [List.any_eq_true]

/-! ## Lemmas on the pipelines -/

theorem ruleStep_congr (call : Call) (op : CpioFile → StepResult) (m : Impl)
    (k1 k2 : Impl → Bool × Impl)
    (h : ∀ m1 : Impl, m1.getwVersion = m.getwVersion → k1 m1 = k2 m1) :
    ruleStep call op m k1 = ruleStep call op m k2 := by
  simp only [ruleStep]
  by_cases hok : (op m.cpio).ok = true
  · simp only [hok, Bool.not_true, Bool.false_eq_true, if_false]
    exact h _ rfl
  · simp [hok]

theorem cxl_as_ruleStep (m : Impl) (k : Impl → Bool × Impl) :
    (if !(JflteNoobdevRamdiskPatcher.cxlModifyInitTargetRc
          { m with calls := m.calls ++ [Call.cxlModifyInitTargetRc] }).1 then
        (false, (JflteNoobdevRamdiskPatcher.cxlModifyInitTargetRc
          { m with calls := m.calls ++ [Call.cxlModifyInitTargetRc] }).2)
      else
        k (JflteNoobdevRamdiskPatcher.cxlModifyInitTargetRc
          { m with calls := m.calls ++ [Call.cxlModifyInitTargetRc] }).2)
      = ruleStep Call.cxlModifyInitTargetRc cxlStep m k := by
  unfold ruleStep cxlStep JflteNoobdevRamdiskPatcher.cxlModifyInitTargetRc
    JflteBaseRamdiskPatcher.new
  by_cases h : (m.cpio.contents InitTargetRc).isEmpty = true <;> simp [h]

theorem patchRamdisk_eq_runPipeline (E : Env) (flavor : Flavor) (m : Impl) :
    patchRamdisk E flavor m = runPipeline E flavor m := by
  cases flavor
  · rfl
  · unfold patchRamdisk runPipeline JflteGoogleEditionRamdiskPatcher.patchRamdisk
    simp only [ruleSteps, runSteps, List.nil_append]
    apply ruleStep_congr; intro m1 h1
    apply ruleStep_congr; intro m2 h2
    rw [h2.trans h1]
    apply ruleStep_congr; intro m3 h3
    apply ruleStep_congr; intro m4 h4
    apply ruleStep_congr; intro m5 h5
    apply ruleStep_congr; intro m6 h6
    rw [h6.trans (h5.trans (h4.trans (h3.trans (h2.trans h1))))]
    apply ruleStep_congr; intro m7 h7
    simp only [postSteps]
    split <;> rfl
  · unfold patchRamdisk runPipeline JflteNoobdevRamdiskPatcher.patchRamdisk
    simp only [ruleSteps, runSteps]
    apply ruleStep_congr; intro m1 _
    apply ruleStep_congr; intro m2 _
    rw [← cxl_as_ruleStep]
    rfl
  · unfold patchRamdisk runPipeline JflteTouchWizRamdiskPatcher.patchRamdisk
    simp only [ruleSteps, runSteps]
    apply ruleStep_congr; intro m1 h1
    apply ruleStep_congr; intro m2 h2
    have e2 := h2.trans h1
    rw [e2]
    apply ruleStep_congr; intro m3 h3
    apply ruleStep_congr; intro m4 h4
    apply ruleStep_congr; intro m5 h5
    apply ruleStep_congr; intro m6 h6
    have e6 := h6.trans (h5.trans (h4.trans (h3.trans e2)))
    rw [e6]
    apply ruleStep_congr; intro m7 h7
    have e7 := h7.trans e6
    rw [e7]
    apply ruleStep_congr; intro m8 h8
    have e8 := h8.trans e7
    rw [e8]
    apply ruleStep_congr; intro m9 h9
    have e9 := h9.trans e8
    rw [e9]
    apply ruleStep_congr; intro m10 h10
    simp only [postSteps]
    split <;> rfl

theorem runSteps_ok (steps : List Step) (k : Impl → Bool × Impl) (m : Impl)
    (h : firstFailure steps m.cpio = none) :
    runSteps steps k m
      = k { m with cpio := applySteps steps m.cpio, calls := m.calls ++ steps.map Step.call } := by
  induction steps generalizing m with
  | nil => simp [runSteps, applySteps]
  | cons s rest ih =>
    simp only [firstFailure] at h
    by_cases hok : (s.run m.cpio).ok = true
    · simp only [hok, if_true, Option.map_eq_none'] at h
      simp only [runSteps, ruleStep, hok, Bool.not_true, Bool.false_eq_true, if_false]
      rw [ih _ h]
      simp [applySteps, List.append_assoc]
    · simp [hok] at h

theorem runSteps_fail (steps : List Step) (k : Impl → Bool × Impl) (m : Impl) (n : Nat)
    (h : firstFailure steps m.cpio = some n) :
    ∃ s, steps[n]? = some s ∧ (s.run (applySteps (steps.take n) m.cpio)).ok = false ∧
      runSteps steps k m
        = (false, { m with
            cpio := applySteps (steps.take (n + 1)) m.cpio,
            calls := m.calls ++ (steps.take (n + 1)).map Step.call,
            error := (s.run (applySteps (steps.take n) m.cpio)).error }) := by
  induction steps generalizing m n with
  | nil => simp [firstFailure] at h
  | cons s rest ih =>
    simp only [firstFailure] at h
    by_cases hok : (s.run m.cpio).ok = true
    · simp only [hok, if_true, Option.map_eq_some'] at h
      obtain ⟨n1, hn1, rfl⟩ := h
      obtain ⟨s1, hs1, hfail, hrun⟩ :=
        ih { m with cpio := (s.run m.cpio).cpio, calls := m.calls ++ [s.call] } n1 hn1
      refine ⟨s1, by simpa using hs1, by simpa [applySteps] using hfail, ?_⟩
      simp only [runSteps, ruleStep, hok, Bool.not_true, Bool.false_eq_true, if_false]
      rw [hrun]
      simp [applySteps, List.append_assoc]
    · simp only [hok, if_false, Option.some.injEq, Bool.false_eq_true] at h
      subst h
      refine ⟨s, by simp, by simpa [applySteps] using hok, ?_⟩
      simp [runSteps, ruleStep, hok, applySteps]

theorem ruleSteps_not_assetOp (E : Env) (v : String) (flavor : Flavor) :
    ∀ c ∈ (ruleSteps E v flavor).map Step.call, c.isAssetOp = false := by
  cases flavor <;> simp [ruleSteps, Call.isAssetOp]

theorem cxlStep_error_of_fail (c : CpioFile) (h : (cxlStep c).ok = false) :
    (cxlStep c).error
      = PatcherError.createCpioError ErrorCode.CpioFileNotExistError "init.target.rc" := by
  unfold cxlStep JflteNoobdevRamdiskPatcher.cxlModifyInitTargetRc at h ⊢
  simp only [JflteBaseRamdiskPatcher.new] at h ⊢
  by_cases he : (c.contents InitTargetRc).isEmpty = true
  · simp only [he, if_true]
    rfl
  · simp [he] at h

theorem postSteps_calls (E : Env) (flavor : Flavor) (m : Impl) :
    (postSteps E flavor m).calls
      = m.calls ++ ((documentedCalls E.pp flavor).drop (ruleSteps E m.getwVersion flavor).length
        ++ if m.getwVersion = E.galaxy.KitKat then releaseCalls E.pp flavor else []) := by
  cases flavor <;> by_cases hv : m.getwVersion = E.galaxy.KitKat <;>
    simp [postSteps, documentedCalls, ruleSteps, releaseCalls, Impl.addFile, Impl.remove, hv]

theorem documentedCalls_take (E : Env) (v : String) (flavor : Flavor) :
    (ruleSteps E v flavor).map Step.call
      = (documentedCalls E.pp flavor).take (ruleSteps E v flavor).length := by
  cases flavor <;> rfl

theorem postSteps_keeps (E : Env) (flavor : Flavor) (m : Impl) :
    (postSteps E flavor m).getwVersion = m.getwVersion
      ∧ (postSteps E flavor m).error = m.error := by
  cases flavor <;> by_cases hv : m.getwVersion = E.galaxy.KitKat <;>
    simp [postSteps, Impl.addFile, Impl.remove, hv]

theorem runSteps_getwVersion (steps : List Step) (k : Impl → Bool × Impl)
    (hk : ∀ m1, (k m1).2.getwVersion = m1.getwVersion) (m : Impl) :
    (runSteps steps k m).2.getwVersion = m.getwVersion := by
  induction steps generalizing m with
  | nil => exact hk m
  | cons s rest ih =>
    simp only [runSteps, ruleStep]
    split
    · rfl
    · rw [ih]

/-! ## Lemmas on asset injection -/

theorem addFile_unreadable (fs : FileSystem) (c : CpioFile) (path name : String)
    (perms : Nat) (h : fs path = none) : (c.addFile fs path name perms).2 = c := by
  unfold CpioFile.addFile
  rw [h]

theorem entriesNamed_remove_same (c : CpioFile) (name : String) :
    (c.remove name).entriesNamed name = [] := by
  unfold CpioFile.entriesNamed CpioFile.remove
  simp only [List.filter_filter]
  rw [List.filter_eq_nil_iff]
  intro e _
  by_cases he : e.name = name <;> simp [he]

theorem entriesNamed_remove_other (c : CpioFile) (name other : String) (h : other ≠ name) :
    (c.remove name).entriesNamed other = c.entriesNamed other := by
  unfold CpioFile.entriesNamed CpioFile.remove
  simp only [List.filter_filter]
  apply List.filter_congr
  intro e _
  by_cases he : e.name = other
  · have : ¬ e.name = name := fun h2 => h (he.symm.trans h2)
    simp [he, this, h]
  · simp [he]

theorem entriesNamed_addFile_same (fs : FileSystem) (c : CpioFile) (path name : String)
    (perms : Nat) (data : Bytes) (h : fs path = some data) :
    (c.addFile fs path name perms).2.entriesNamed name = [⟨name, data, perms⟩] := by
  have hrem := entriesNamed_remove_same c name
  unfold CpioFile.addFile
  rw [h]
  unfold CpioFile.entriesNamed at hrem ⊢
  simp only [List.filter_append, hrem, List.nil_append]
  simp [List.filter]

theorem entriesNamed_addFile_other (fs : FileSystem) (c : CpioFile)
    (path name other : String) (perms : Nat) (h : other ≠ name) :
    (c.addFile fs path name perms).2.entriesNamed other = c.entriesNamed other := by
  have hrem := entriesNamed_remove_other c name other h
  unfold CpioFile.addFile
  cases hfs : fs path with
  | none => rfl
  | some data =>
    unfold CpioFile.entriesNamed at hrem ⊢
    simp only [List.filter_append, hrem]
    have hne : (name == other) = false := by
      simpa using fun h2 : name = other => h h2.symm
    simp [List.filter, hne]

theorem postSteps_cpio (E : Env) (flavor : Flavor) (m : Impl) :
    (postSteps E flavor m).cpio = injectAssets E m.getwVersion flavor m.cpio := by
  cases flavor <;> by_cases hv : m.getwVersion = E.galaxy.KitKat <;>
    simp [postSteps, injectAssets, Impl.addFile, Impl.remove, hv]

theorem injectAssets_helper_readable (E : Env) (v : String) (flavor : Flavor) (c : CpioFile)
    (data : Bytes) (hfl : flavor ≠ Flavor.JflteGoogleEdition)
    (h : E.fs (E.pp.scriptsDirectory ++ "/jflte/mount.modem.sh") = some data) :
    (injectAssets E v flavor c).entriesNamed "init.additional.sh"
      = [⟨"init.additional.sh", data, 0o755⟩] := by
  cases flavor
  · exact entriesNamed_addFile_same _ _ _ _ _ _ h
  · exact absurd rfl hfl
  · exact entriesNamed_addFile_same _ _ _ _ _ _ h
  · simp only [injectAssets]
    split
    · rw [entriesNamed_addFile_other _ _ _ _ _ _ (by decide),
        entriesNamed_addFile_other _ _ _ _ _ _ (by decide),
        entriesNamed_remove_other _ _ _ (by decide)]
      exact entriesNamed_addFile_same _ _ _ _ _ _ h
    · exact entriesNamed_addFile_same _ _ _ _ _ _ h

theorem injectAssets_helper_unreadable (E : Env) (v : String) (flavor : Flavor)
    (c : CpioFile)
    (h : E.fs (E.pp.scriptsDirectory ++ "/jflte/mount.modem.sh") = none) :
    (injectAssets E v flavor c).entriesNamed "init.additional.sh"
      = c.entriesNamed "init.additional.sh" := by
  cases flavor
  · simp only [injectAssets]; rw [addFile_unreadable _ _ _ _ _ h]
  · simp only [injectAssets]
    split
    · rw [entriesNamed_addFile_other _ _ _ _ _ _ (by decide),
        entriesNamed_remove_other _ _ _ (by decide)]
    · rfl
  · simp only [injectAssets]; rw [addFile_unreadable _ _ _ _ _ h]
  · simp only [injectAssets]
    split
    · rw [entriesNamed_addFile_other _ _ _ _ _ _ (by decide),
        entriesNamed_addFile_other _ _ _ _ _ _ (by decide),
        entriesNamed_remove_other _ _ _ (by decide), addFile_unreadable _ _ _ _ _ h]
    · rw [addFile_unreadable _ _ _ _ _ h]

theorem injectAssets_older (E : Env) (v : String) (flavor : Flavor) (c : CpioFile)
    (hv : ¬ v = E.galaxy.KitKat) :
    (injectAssets E v flavor c).entriesNamed "init" = c.entriesNamed "init"
      ∧ (injectAssets E v flavor c).entriesNamed "sbin/adbd" = c.entriesNamed "sbin/adbd" := by
  cases flavor
  · exact ⟨entriesNamed_addFile_other _ _ _ _ _ _ (by decide),
      entriesNamed_addFile_other _ _ _ _ _ _ (by decide)⟩
  · have hc : injectAssets E v Flavor.JflteGoogleEdition c = c := by
      simp only [injectAssets, if_neg hv]
    rw [hc]
    exact ⟨rfl, rfl⟩
  · exact ⟨entriesNamed_addFile_other _ _ _ _ _ _ (by decide),
      entriesNamed_addFile_other _ _ _ _ _ _ (by decide)⟩
  · simp only [injectAssets, if_neg hv]
    exact ⟨entriesNamed_addFile_other _ _ _ _ _ _ (by decide),
      entriesNamed_addFile_other _ _ _ _ _ _ (by decide)⟩

theorem injectAssets_init_ge (E : Env) (v : String) (c : CpioFile)
    (hv : v = E.galaxy.KitKat) :
    (∀ data, E.fs (E.pp.initsDirectory ++ "/init-kk44") = some data →
        (injectAssets E v Flavor.JflteGoogleEdition c).entriesNamed "init"
          = [⟨"init", data, 0o755⟩])
      ∧ (E.fs (E.pp.initsDirectory ++ "/init-kk44") = none →
        (injectAssets E v Flavor.JflteGoogleEdition c).entriesNamed "init" = []) := by
  simp only [injectAssets, if_pos hv]
  constructor
  · intro data h
    exact entriesNamed_addFile_same _ _ _ _ _ _ h
  · intro h
    rw [addFile_unreadable _ _ _ _ _ h]
    exact entriesNamed_remove_same _ _

theorem injectAssets_init_tw (E : Env) (v : String) (c : CpioFile)
    (hv : v = E.galaxy.KitKat) :
    (∀ data, E.fs (E.pp.initsDirectory ++ "/jflte/tw44-init") = some data →
        (injectAssets E v Flavor.JflteTouchWiz c).entriesNamed "init"
          = [⟨"init", data, 0o755⟩])
      ∧ (E.fs (E.pp.initsDirectory ++ "/jflte/tw44-init") = none →
        (injectAssets E v Flavor.JflteTouchWiz c).entriesNamed "init" = []) := by
  simp only [injectAssets, if_pos hv]
  constructor
  · intro data h
    rw [entriesNamed_addFile_other _ _ _ _ _ _ (by decide)]
    exact entriesNamed_addFile_same _ _ _ _ _ _ h
  · intro h
    rw [entriesNamed_addFile_other _ _ _ _ _ _ (by decide), addFile_unreadable _ _ _ _ _ h]
    exact entriesNamed_remove_same _ _

theorem injectAssets_adbd_tw (E : Env) (v : String) (c : CpioFile)
    (hv : v = E.galaxy.KitKat) :
    (∀ data, E.fs (E.pp.initsDirectory ++ "/jflte/tw44-adbd") = some data →
        (injectAssets E v Flavor.JflteTouchWiz c).entriesNamed "sbin/adbd"
          = [⟨"sbin/adbd", data, 0o755⟩])
      ∧ (E.fs (E.pp.initsDirectory ++ "/jflte/tw44-adbd") = none →
        (injectAssets E v Flavor.JflteTouchWiz c).entriesNamed "sbin/adbd"
          = c.entriesNamed "sbin/adbd") := by
  simp only [injectAssets, if_pos hv]
  constructor
  · intro data h
    exact entriesNamed_addFile_same _ _ _ _ _ _ h
  · intro h
    rw [addFile_unreadable _ _ _ _ _ h, entriesNamed_addFile_other _ _ _ _ _ _ (by decide),
      entriesNamed_remove_other _ _ _ (by decide),
      entriesNamed_addFile_other _ _ _ _ _ _ (by decide)]

/-! ## The claims -/

/-- C1. Failure policy. For each of the four flavors and every archive: if
the rule step at index `k` is the first one to fail, then `patchRamdisk`
returns `false`; the collaborator calls it made are exactly the first `k + 1`
rule steps, in order (so no later rule step is invoked); none of these calls
is an `addFile` or a `remove`; and `error()` afterwards is exactly the error
of the failing step. For the noobdev target-init rewrite (index 2 of that
flavor) this is the `CpioFileNotExistError` on `init.target.rc` that the
rewrite itself recorded. -/
theorem patchRamdisk_first_failure (E : Env) (flavor : Flavor) (m : Impl) (k : Nat)
    (h : firstFailure (ruleSteps E m.getwVersion flavor) m.cpio = some k) :
    (patchRamdisk E flavor m).1 = false
      ∧ (patchRamdisk E flavor m).2.calls
          = m.calls ++ ((ruleSteps E m.getwVersion flavor).take (k + 1)).map Step.call
      ∧ (∀ c ∈ ((ruleSteps E m.getwVersion flavor).take (k + 1)).map Step.call,
          c.isAssetOp = false)
      ∧ (∃ s, (ruleSteps E m.getwVersion flavor)[k]? = some s
          ∧ (s.run (applySteps ((ruleSteps E m.getwVersion flavor).take k) m.cpio)).ok = false
          ∧ JflteBaseRamdiskPatcher.error (patchRamdisk E flavor m).2
              = (s.run (applySteps ((ruleSteps E m.getwVersion flavor).take k) m.cpio)).error)
      ∧ (flavor = Flavor.JflteNoobdev → k = 2 →
          JflteBaseRamdiskPatcher.error (patchRamdisk E flavor m).2
            = PatcherError.createCpioError ErrorCode.CpioFileNotExistError "init.target.rc") := by
  obtain ⟨s, hs, hfail, hrun⟩ :=
    runSteps_fail _ (fun m1 => (true, postSteps E flavor m1)) m k h
  have hrun2 : patchRamdisk E flavor m = _ := (patchRamdisk_eq_runPipeline E flavor m).trans hrun
  refine ⟨by rw [hrun2], by rw [hrun2], ?_, ⟨s, hs, hfail, by rw [hrun2]; rfl⟩, ?_⟩
  · intro c hc
    apply ruleSteps_not_assetOp E m.getwVersion flavor c
    obtain ⟨st, hst, rfl⟩ := List.mem_map.mp hc
    exact List.mem_map.mpr ⟨st, List.mem_of_mem_take hst, rfl⟩
  · intro hfl hk
    subst hfl hk
    rw [hrun2]
    have hs2 : s = ⟨Call.cxlModifyInitTargetRc, cxlStep⟩ := by
      simp [ruleSteps] at hs
      exact hs.symm
    subst hs2
    exact cxlStep_error_of_fail _ hfail

/-- Witness for C1: the AOSP pipeline on the sample archive when the fstab
rewrite (index 3) fails. -/
theorem patchRamdisk_first_failure_witness :
    firstFailure (ruleSteps sampleEnvFstabFails
        (construct sampleEnvFstabFails Flavor.JflteAOSP sampleArchive).getwVersion
        Flavor.JflteAOSP)
        (construct sampleEnvFstabFails Flavor.JflteAOSP sampleArchive).cpio = some 3
      ∧ (patchRamdisk sampleEnvFstabFails Flavor.JflteAOSP
          (construct sampleEnvFstabFails Flavor.JflteAOSP sampleArchive)).1 = false
      ∧ (patchRamdisk sampleEnvFstabFails Flavor.JflteAOSP
          (construct sampleEnvFstabFails Flavor.JflteAOSP sampleArchive)).2.calls
        = (construct sampleEnvFstabFails Flavor.JflteAOSP sampleArchive).calls
            ++ ((ruleSteps sampleEnvFstabFails
                (construct sampleEnvFstabFails Flavor.JflteAOSP sampleArchive).getwVersion
                Flavor.JflteAOSP).take (3 + 1)).map Step.call :=
  ⟨by decide,
    (patchRamdisk_first_failure sampleEnvFstabFails Flavor.JflteAOSP
      (construct sampleEnvFstabFails Flavor.JflteAOSP sampleArchive) 3 (by decide)).1,
    (patchRamdisk_first_failure sampleEnvFstabFails Flavor.JflteAOSP
      (construct sampleEnvFstabFails Flavor.JflteAOSP sampleArchive) 3 (by decide)).2.1⟩

/-- C8. No rollback. For every flavor and every archive: if the rule step at
index `k` is the first one to fail, the archive after `patchRamdisk` is
exactly the archive obtained by applying the first `k + 1` rule steps, in
order, to the initial archive. -/
theorem patchRamdisk_no_rollback (E : Env) (flavor : Flavor) (m : Impl) (k : Nat)
    (h : firstFailure (ruleSteps E m.getwVersion flavor) m.cpio = some k) :
    (patchRamdisk E flavor m).2.cpio
      = applySteps ((ruleSteps E m.getwVersion flavor).take (k + 1)) m.cpio := by
  obtain ⟨s, _, _, hrun⟩ :=
    runSteps_fail _ (fun m1 => (true, postSteps E flavor m1)) m k h
  rw [patchRamdisk_eq_runPipeline, runPipeline, hrun]

/-- Witness for C8: the AOSP pipeline on the sample archive when the fstab
rewrite (index 3) fails. -/
theorem patchRamdisk_no_rollback_witness :
    firstFailure (ruleSteps sampleEnvFstabFails
        (construct sampleEnvFstabFails Flavor.JflteAOSP sampleArchive).getwVersion
        Flavor.JflteAOSP)
        (construct sampleEnvFstabFails Flavor.JflteAOSP sampleArchive).cpio = some 3
      ∧ (patchRamdisk sampleEnvFstabFails Flavor.JflteAOSP
          (construct sampleEnvFstabFails Flavor.JflteAOSP sampleArchive)).2.cpio
        = applySteps ((ruleSteps sampleEnvFstabFails
              (construct sampleEnvFstabFails Flavor.JflteAOSP sampleArchive).getwVersion
              Flavor.JflteAOSP).take (3 + 1))
            (construct sampleEnvFstabFails Flavor.JflteAOSP sampleArchive).cpio :=
  ⟨by decide,
    patchRamdisk_no_rollback sampleEnvFstabFails Flavor.JflteAOSP
      (construct sampleEnvFstabFails Flavor.JflteAOSP sampleArchive) 3 (by decide)⟩

theorem patchRamdisk_of_all_ok (E : Env) (flavor : Flavor) (m : Impl)
    (h : firstFailure (ruleSteps E m.getwVersion flavor) m.cpio = none) :
    patchRamdisk E flavor m
      = (true, postSteps E flavor { m with
          cpio := applySteps (ruleSteps E m.getwVersion flavor) m.cpio,
          calls := m.calls ++ (ruleSteps E m.getwVersion flavor).map Step.call }) := by
  rw [patchRamdisk_eq_runPipeline, runPipeline, runSteps_ok _ _ _ h]

theorem calls_of_all_ok (E : Env) (flavor : Flavor) (m : Impl)
    (h : firstFailure (ruleSteps E m.getwVersion flavor) m.cpio = none) :
    (patchRamdisk E flavor m).2.calls
      = m.calls ++ (documentedCalls E.pp flavor
          ++ (if m.getwVersion = E.galaxy.KitKat then releaseCalls E.pp flavor else [])) := by
  rw [patchRamdisk_of_all_ok E flavor m h]
  simp only
  rw [postSteps_calls]
  simp only
  rw [documentedCalls_take E m.getwVersion flavor, List.append_assoc,
    ← List.append_assoc (List.take _ _), List.take_append_drop]

theorem releaseCalls_assetOp (pp : PatcherPaths) (flavor : Flavor) :
    (releaseCalls pp flavor).filter (fun c => !c.isAssetOp) = [] := by
  cases flavor <;> rfl

theorem cpio_of_all_ok (E : Env) (flavor : Flavor) (m : Impl)
    (h : firstFailure (ruleSteps E m.getwVersion flavor) m.cpio = none) :
    (patchRamdisk E flavor m).2.cpio
      = injectAssets E m.getwVersion flavor
          (applySteps (ruleSteps E m.getwVersion flavor) m.cpio) := by
  rw [patchRamdisk_of_all_ok E flavor m h]
  simp only
  rw [postSteps_cpio]

/-- C6. Ordered rule list. For each of the four flavors, when every rule step
succeeds, `patchRamdisk` returns `true` and the collaborator calls it makes,
with their arguments, are exactly the documented list of the flavor (AOSP:
core, init.rc, init.qcom.rc with default files, fstab with flag `true`,
init.target.rc, add `mount.modem.sh` as `init.additional.sh` mode 0755; Google
Edition: core, init.rc, GE init.rc, init.qcom.rc with `init.jgedlte.rc`, fstab
without arguments, init.target.rc, MSM8960_lpm.rc; noobdev: core, fstab with
the five overrides, the noobdev init.target.rc rewrite, add
`init.additional.sh` mode 0755; TouchWiz: core, init.rc, TW init.rc,
init.qcom.rc, fstab, init.target.rc, TW init.target.rc, MSM8960_lpm.rc, TW
ueventd.rc, TW ueventd.qcom.rc, add `init.additional.sh` mode 0755), followed
by the binary-replacement calls of the flavor when the stored release variant
is `KitKat`. In particular the rule-module operations among the calls are
exactly those of the documented list, whatever the release variant. The
archive left behind is the archive produced by the rule steps, applied in that
order, with the flavor's assets injected; for the three flavors that inject
the mount helper, when `mount.modem.sh` is readable the archive holds exactly
one entry `init.additional.sh`, with the bytes of `mount.modem.sh` and mode
0755. -/
theorem patchRamdisk_success_calls (E : Env) (flavor : Flavor) (m : Impl)
    (h : firstFailure (ruleSteps E m.getwVersion flavor) m.cpio = none) :
    (patchRamdisk E flavor m).1 = true
      ∧ (patchRamdisk E flavor m).2.calls
          = m.calls ++ (documentedCalls E.pp flavor
              ++ (if m.getwVersion = E.galaxy.KitKat then releaseCalls E.pp flavor else []))
      ∧ ((patchRamdisk E flavor m).2.calls.drop m.calls.length).filter
            (fun c => !c.isAssetOp)
          = (documentedCalls E.pp flavor).filter (fun c => !c.isAssetOp)
      ∧ (patchRamdisk E flavor m).2.cpio
          = injectAssets E m.getwVersion flavor
              (applySteps (ruleSteps E m.getwVersion flavor) m.cpio)
      ∧ (flavor ≠ Flavor.JflteGoogleEdition →
          ∀ data, E.fs (E.pp.scriptsDirectory ++ "/jflte/mount.modem.sh") = some data →
            (patchRamdisk E flavor m).2.cpio.entriesNamed "init.additional.sh"
              = [⟨"init.additional.sh", data, 0o755⟩]) := by
  refine ⟨?_, calls_of_all_ok E flavor m h, ?_, cpio_of_all_ok E flavor m h, ?_⟩
  · rw [patchRamdisk_of_all_ok E flavor m h]
  · rw [calls_of_all_ok E flavor m h, List.drop_left, List.filter_append]
    split
    · rw [releaseCalls_assetOp, List.append_nil]
    · simp
  · intro hfl data hdata
    rw [cpio_of_all_ok E flavor m h]
    exact injectAssets_helper_readable E _ flavor _ data hfl hdata

/-- Witness for C6: the noobdev pipeline on the sample archive. -/
theorem patchRamdisk_success_calls_witness :
    firstFailure (ruleSteps sampleEnv "" Flavor.JflteNoobdev) sampleArchive = none
      ∧ (patchRamdisk sampleEnv Flavor.JflteNoobdev
          (construct sampleEnv Flavor.JflteNoobdev sampleArchive)).1 = true
      ∧ (patchRamdisk sampleEnv Flavor.JflteNoobdev
          (construct sampleEnv Flavor.JflteNoobdev sampleArchive)).2.calls
        = [] ++ (documentedCalls sampleEnv.pp Flavor.JflteNoobdev
            ++ (if "" = sampleEnv.galaxy.KitKat then
                  releaseCalls sampleEnv.pp Flavor.JflteNoobdev else []))
      ∧ (patchRamdisk sampleEnv Flavor.JflteNoobdev
          (construct sampleEnv Flavor.JflteNoobdev sampleArchive)).2.cpio.entriesNamed
            "init.additional.sh"
        = [⟨"init.additional.sh", "#!/sbin/sh\n".toList, 0o755⟩] :=
  ⟨by decide,
    (patchRamdisk_success_calls sampleEnv Flavor.JflteNoobdev
      (construct sampleEnv Flavor.JflteNoobdev sampleArchive) (by decide)).1,
    (patchRamdisk_success_calls sampleEnv Flavor.JflteNoobdev
      (construct sampleEnv Flavor.JflteNoobdev sampleArchive) (by decide)).2.1,
    (patchRamdisk_success_calls sampleEnv Flavor.JflteNoobdev
      (construct sampleEnv Flavor.JflteNoobdev sampleArchive) (by decide)).2.2.2.2
      (by decide) "#!/sbin/sh\n".toList (by decide)⟩

theorem construct_getwVersion (E : Env) (flavor : Flavor) (cpio : CpioFile)
    (hfl : flavor = Flavor.JflteGoogleEdition ∨ flavor = Flavor.JflteTouchWiz) :
    (construct E flavor cpio).getwVersion
      = if cpio.existsFile Msm8960LpmRc then E.galaxy.JellyBean else E.galaxy.KitKat := by
  rcases hfl with rfl | rfl
  · simp only [construct, JflteGoogleEditionRamdiskPatcher.new, JflteBaseRamdiskPatcher.new]
    split <;> rfl
  · simp only [construct, JflteTouchWizRamdiskPatcher.new, JflteBaseRamdiskPatcher.new]
    split <;> rfl

theorem construct_cpio_calls (E : Env) (flavor : Flavor) (cpio : CpioFile) :
    (construct E flavor cpio).cpio = cpio ∧ (construct E flavor cpio).calls = [] := by
  cases flavor
  · exact ⟨rfl, rfl⟩
  · simp only [construct, JflteGoogleEditionRamdiskPatcher.new, JflteBaseRamdiskPatcher.new]
    split <;> exact ⟨rfl, rfl⟩
  · exact ⟨rfl, rfl⟩
  · simp only [construct, JflteTouchWizRamdiskPatcher.new, JflteBaseRamdiskPatcher.new]
    split <;> exact ⟨rfl, rfl⟩

theorem documentedCalls_touch (pp : PatcherPaths) (flavor : Flavor) :
    ∀ c ∈ documentedCalls pp flavor,
      c.touches "init" = false ∧ c.touches "sbin/adbd" = false := by
  cases flavor <;> simp [documentedCalls, Call.touches]

/-- C2, as amended. Release-variant branch. For the Google Edition and
TouchWiz flavors, when every rule step succeeds: a pipeline constructed on an
archive that contains `MSM8960_lpm.rc` stores `JellyBean`, its run performs no
remove or add on `init` or `sbin/adbd`, and the entries `init` and `sbin/adbd`
of the final archive are those left by the rule steps. A pipeline constructed
on an archive without it stores `KitKat` and its run ends with
`remove("init")` followed by `addFile(.., "init", 0755)` (and, for TouchWiz,
by `addFile(.., "sbin/adbd", 0755)`); in the final archive the stock `init` is
gone, and when the replacement asset is readable the only entry `init` (for
TouchWiz also the only entry `sbin/adbd`) holds the bytes of the asset with
mode 0755. When the replacement `init` is unreadable no entry `init` is left;
when the replacement `sbin/adbd` is unreadable the entries `sbin/adbd` are
those left by the rule steps. -/
theorem release_variant_branch (E : Env) (flavor : Flavor) (cpio : CpioFile)
    (hfl : flavor = Flavor.JflteGoogleEdition ∨ flavor = Flavor.JflteTouchWiz)
    (hok : firstFailure (ruleSteps E (construct E flavor cpio).getwVersion flavor) cpio = none) :
    (cpio.existsFile Msm8960LpmRc = true →
        (construct E flavor cpio).getwVersion = E.galaxy.JellyBean
        ∧ (∀ c ∈ (patchRamdisk E flavor (construct E flavor cpio)).2.calls,
            c.touches "init" = false ∧ c.touches "sbin/adbd" = false)
        ∧ (patchRamdisk E flavor (construct E flavor cpio)).2.cpio.entriesNamed "init"
            = (applySteps (ruleSteps E (construct E flavor cpio).getwVersion flavor)
                cpio).entriesNamed "init"
        ∧ (patchRamdisk E flavor (construct E flavor cpio)).2.cpio.entriesNamed "sbin/adbd"
            = (applySteps (ruleSteps E (construct E flavor cpio).getwVersion flavor)
                cpio).entriesNamed "sbin/adbd")
      ∧ (cpio.existsFile Msm8960LpmRc = false →
        (construct E flavor cpio).getwVersion = E.galaxy.KitKat
        ∧ (patchRamdisk E flavor (construct E flavor cpio)).2.calls
            = documentedCalls E.pp flavor ++ releaseCalls E.pp flavor
        ∧ (flavor = Flavor.JflteGoogleEdition →
            releaseCalls E.pp flavor
              = [ Call.cpioRemove "init",
                  Call.cpioAddFile (E.pp.initsDirectory ++ "/init-kk44") "init" 0o755 ]
            ∧ (∀ data, E.fs (E.pp.initsDirectory ++ "/init-kk44") = some data →
                (patchRamdisk E flavor (construct E flavor cpio)).2.cpio.entriesNamed "init"
                  = [⟨"init", data, 0o755⟩])
            ∧ (E.fs (E.pp.initsDirectory ++ "/init-kk44") = none →
                (patchRamdisk E flavor (construct E flavor cpio)).2.cpio.entriesNamed "init"
                  = []))
        ∧ (flavor = Flavor.JflteTouchWiz →
            releaseCalls E.pp flavor
              = [ Call.cpioRemove "init",
                  Call.cpioAddFile (E.pp.initsDirectory ++ "/jflte/tw44-init") "init" 0o755,
                  Call.cpioAddFile (E.pp.initsDirectory ++ "/jflte/tw44-adbd") "sbin/adbd"
                    0o755 ]
            ∧ (∀ data, E.fs (E.pp.initsDirectory ++ "/jflte/tw44-init") = some data →
                (patchRamdisk E flavor (construct E flavor cpio)).2.cpio.entriesNamed "init"
                  = [⟨"init", data, 0o755⟩])
            ∧ (E.fs (E.pp.initsDirectory ++ "/jflte/tw44-init") = none →
                (patchRamdisk E flavor (construct E flavor cpio)).2.cpio.entriesNamed "init"
                  = [])
            ∧ (∀ data, E.fs (E.pp.initsDirectory ++ "/jflte/tw44-adbd") = some data →
                (patchRamdisk E flavor (construct E flavor cpio)).2.cpio.entriesNamed
                    "sbin/adbd"
                  = [⟨"sbin/adbd", data, 0o755⟩])
            ∧ (E.fs (E.pp.initsDirectory ++ "/jflte/tw44-adbd") = none →
                (patchRamdisk E flavor (construct E flavor cpio)).2.cpio.entriesNamed
                    "sbin/adbd"
                  = (applySteps (ruleSteps E (construct E flavor cpio).getwVersion flavor)
                      cpio).entriesNamed "sbin/adbd"))) := by
  have hv := construct_getwVersion E flavor cpio hfl
  have hc := construct_cpio_calls E flavor cpio
  have hok2 : firstFailure (ruleSteps E (construct E flavor cpio).getwVersion flavor)
      (construct E flavor cpio).cpio = none := by rw [hc.1]; exact hok
  have hcalls := calls_of_all_ok E flavor (construct E flavor cpio) hok2
  rw [hc.2, List.nil_append] at hcalls
  have hcpio := cpio_of_all_ok E flavor (construct E flavor cpio) hok2
  rw [hc.1] at hcpio
  constructor
  · intro hex
    rw [hex] at hv
    simp only [if_true] at hv
    have hne : ¬ (construct E flavor cpio).getwVersion = E.galaxy.KitKat := by
      rw [hv]; exact E.galaxy.distinct
    refine ⟨hv, ?_, ?_, ?_⟩
    · rw [hcalls, if_neg hne, List.append_nil]
      exact documentedCalls_touch E.pp flavor
    · rw [hcpio]
      exact (injectAssets_older E _ flavor _ hne).1
    · rw [hcpio]
      exact (injectAssets_older E _ flavor _ hne).2
  · intro hex
    rw [hex] at hv
    simp only [Bool.false_eq_true, if_false] at hv
    refine ⟨hv, ?_, ?_, ?_⟩
    · rw [hcalls, if_pos hv]
    · rintro rfl
      rw [hcpio]
      exact ⟨rfl, (injectAssets_init_ge E _ _ hv).1, (injectAssets_init_ge E _ _ hv).2⟩
    · rintro rfl
      rw [hcpio]
      exact ⟨rfl, (injectAssets_init_tw E _ _ hv).1, (injectAssets_init_tw E _ _ hv).2,
        (injectAssets_adbd_tw E _ _ hv).1, (injectAssets_adbd_tw E _ _ hv).2⟩

/-- Witness for C2 as amended: the TouchWiz pipeline on the sample archive of
the newer release, with readable assets. -/
theorem release_variant_branch_witness :
    sampleArchiveNewer.existsFile Msm8960LpmRc = false
      ∧ (patchRamdisk sampleEnv Flavor.JflteTouchWiz
          (construct sampleEnv Flavor.JflteTouchWiz sampleArchiveNewer)).2.calls
        = documentedCalls sampleEnv.pp Flavor.JflteTouchWiz
            ++ releaseCalls sampleEnv.pp Flavor.JflteTouchWiz
      ∧ (patchRamdisk sampleEnv Flavor.JflteTouchWiz
          (construct sampleEnv Flavor.JflteTouchWiz sampleArchiveNewer)).2.cpio.entriesNamed
            "init"
        = [⟨"init", "tw44-init".toList, 0o755⟩]
      ∧ (patchRamdisk sampleEnv Flavor.JflteTouchWiz
          (construct sampleEnv Flavor.JflteTouchWiz sampleArchiveNewer)).2.cpio.entriesNamed
            "sbin/adbd"
        = [⟨"sbin/adbd", "tw44-adbd".toList, 0o755⟩] :=
  ⟨by decide,
    ((release_variant_branch sampleEnv Flavor.JflteTouchWiz sampleArchiveNewer
      (Or.inr rfl) (by decide)).2 (by decide)).2.1,
    (((release_variant_branch sampleEnv Flavor.JflteTouchWiz sampleArchiveNewer
      (Or.inr rfl) (by decide)).2 (by decide)).2.2.2 rfl).2.1
      "tw44-init".toList (by decide),
    (((release_variant_branch sampleEnv Flavor.JflteTouchWiz sampleArchiveNewer
      (Or.inr rfl) (by decide)).2 (by decide)).2.2.2 rfl).2.2.2.1
      "tw44-adbd".toList (by decide)⟩

/-- Counterexample to C2 as stated. Every rule step of the sample environment
succeeds. The Google Edition pipeline constructed on the sample archive, which
contains `MSM8960_lpm.rc`, makes no call that removes or adds `init` and
leaves the stock `init` in place; the one constructed on the archive without
`MSM8960_lpm.rc` removes `init` and adds the replacement with mode 0755. When
the replacement asset is unreadable, the run on the archive without
`MSM8960_lpm.rc` still removes `init` and leaves no entry `init` at all. -/
theorem release_variant_branch_counterexample :
    sampleArchive.existsFile Msm8960LpmRc = true
      ∧ firstFailure (ruleSteps sampleEnv
          (construct sampleEnv Flavor.JflteGoogleEdition sampleArchive).getwVersion
          Flavor.JflteGoogleEdition) sampleArchive = none
      ∧ (construct sampleEnv Flavor.JflteGoogleEdition sampleArchive).getwVersion
          = sampleEnv.galaxy.JellyBean
      ∧ (∀ c ∈ (patchRamdisk sampleEnv Flavor.JflteGoogleEdition
            (construct sampleEnv Flavor.JflteGoogleEdition sampleArchive)).2.calls,
          c.touches "init" = false)
      ∧ (patchRamdisk sampleEnv Flavor.JflteGoogleEdition
            (construct sampleEnv Flavor.JflteGoogleEdition sampleArchive)).2.cpio.entriesNamed
          "init" = [⟨"init", "stock-init".toList, 0o750⟩]
      ∧ sampleArchiveNewer.existsFile Msm8960LpmRc = false
      ∧ firstFailure (ruleSteps sampleEnv
          (construct sampleEnv Flavor.JflteGoogleEdition sampleArchiveNewer).getwVersion
          Flavor.JflteGoogleEdition) sampleArchiveNewer = none
      ∧ Call.cpioRemove "init" ∈ (patchRamdisk sampleEnv Flavor.JflteGoogleEdition
            (construct sampleEnv Flavor.JflteGoogleEdition sampleArchiveNewer)).2.calls
      ∧ (patchRamdisk sampleEnv Flavor.JflteGoogleEdition
            (construct sampleEnv Flavor.JflteGoogleEdition
              sampleArchiveNewer)).2.cpio.entriesNamed
          "init" = [⟨"init", "init-kk44".toList, 0o755⟩]
      ∧ firstFailure (ruleSteps sampleEnvNoAssets
          (construct sampleEnvNoAssets Flavor.JflteGoogleEdition
            sampleArchiveNewer).getwVersion
          Flavor.JflteGoogleEdition) sampleArchiveNewer = none
      ∧ Call.cpioRemove "init" ∈ (patchRamdisk sampleEnvNoAssets Flavor.JflteGoogleEdition
            (construct sampleEnvNoAssets Flavor.JflteGoogleEdition
              sampleArchiveNewer)).2.calls
      ∧ (patchRamdisk sampleEnvNoAssets Flavor.JflteGoogleEdition
            (construct sampleEnvNoAssets Flavor.JflteGoogleEdition
              sampleArchiveNewer)).2.cpio.entriesNamed
          "init" = [] := by
  decide

/-- C9, as amended. The result of `addFile` is discarded. For every flavor,
when every rule step succeeds, `patchRamdisk` returns `true` and leaves
`error()` as it was, whether or not any asset source can be read. An `addFile`
whose source cannot be read returns `false` and leaves the archive as it is.
Hence, asset by asset: with `mount.modem.sh` unreadable the entries
`init.additional.sh` are those left by the rule steps; on the `KitKat` path
with the replacement `init` unreadable no entry `init` is left (it was removed
first); on the `KitKat` path of TouchWiz with the replacement `sbin/adbd`
unreadable the entries `sbin/adbd` are those left by the rule steps. -/
theorem asset_injection_result_ignored (E : Env) (flavor : Flavor) (m : Impl)
    (h : firstFailure (ruleSteps E m.getwVersion flavor) m.cpio = none) :
    (patchRamdisk E flavor m).1 = true
      ∧ JflteBaseRamdiskPatcher.error (patchRamdisk E flavor m).2 = m.error
      ∧ (∀ (c : CpioFile) (path name : String) (perms : Nat), E.fs path = none →
          c.addFile E.fs path name perms = (false, c))
      ∧ (patchRamdisk E flavor m).2.cpio
          = injectAssets E m.getwVersion flavor
              (applySteps (ruleSteps E m.getwVersion flavor) m.cpio)
      ∧ (E.fs (E.pp.scriptsDirectory ++ "/jflte/mount.modem.sh") = none →
          (patchRamdisk E flavor m).2.cpio.entriesNamed "init.additional.sh"
            = (applySteps (ruleSteps E m.getwVersion flavor) m.cpio).entriesNamed
                "init.additional.sh")
      ∧ (flavor = Flavor.JflteGoogleEdition → m.getwVersion = E.galaxy.KitKat →
          E.fs (E.pp.initsDirectory ++ "/init-kk44") = none →
          (patchRamdisk E flavor m).2.cpio.entriesNamed "init" = [])
      ∧ (flavor = Flavor.JflteTouchWiz → m.getwVersion = E.galaxy.KitKat →
          E.fs (E.pp.initsDirectory ++ "/jflte/tw44-init") = none →
          (patchRamdisk E flavor m).2.cpio.entriesNamed "init" = [])
      ∧ (flavor = Flavor.JflteTouchWiz → m.getwVersion = E.galaxy.KitKat →
          E.fs (E.pp.initsDirectory ++ "/jflte/tw44-adbd") = none →
          (patchRamdisk E flavor m).2.cpio.entriesNamed "sbin/adbd"
            = (applySteps (ruleSteps E m.getwVersion flavor) m.cpio).entriesNamed
                "sbin/adbd") := by
  have hcpio := cpio_of_all_ok E flavor m h
  refine ⟨?_, ?_, ?_, hcpio, ?_, ?_, ?_, ?_⟩
  · rw [patchRamdisk_of_all_ok E flavor m h]
  · rw [patchRamdisk_of_all_ok E flavor m h]
    exact (postSteps_keeps E flavor _).2
  · intro c path name perms hfs
    unfold CpioFile.addFile
    rw [hfs]
  · intro hfs
    rw [hcpio]
    exact injectAssets_helper_unreadable E _ flavor _ hfs
  · rintro rfl hv hfs
    rw [hcpio]
    exact (injectAssets_init_ge E _ _ hv).2 hfs
  · rintro rfl hv hfs
    rw [hcpio]
    exact (injectAssets_init_tw E _ _ hv).2 hfs
  · rintro rfl hv hfs
    rw [hcpio]
    exact (injectAssets_adbd_tw E _ _ hv).2 hfs

/-- Witness for C9 as amended: the TouchWiz pipeline, with no readable asset,
on a newer-release archive that already holds `init.additional.sh` and
`sbin/adbd`. -/
theorem asset_injection_result_ignored_witness :
    firstFailure (ruleSteps sampleEnvNoAssets
        (construct sampleEnvNoAssets Flavor.JflteTouchWiz sampleArchiveStale).getwVersion
        Flavor.JflteTouchWiz)
        (construct sampleEnvNoAssets Flavor.JflteTouchWiz sampleArchiveStale).cpio = none
      ∧ (patchRamdisk sampleEnvNoAssets Flavor.JflteTouchWiz
          (construct sampleEnvNoAssets Flavor.JflteTouchWiz sampleArchiveStale)).1 = true
      ∧ JflteBaseRamdiskPatcher.error (patchRamdisk sampleEnvNoAssets Flavor.JflteTouchWiz
          (construct sampleEnvNoAssets Flavor.JflteTouchWiz sampleArchiveStale)).2
        = (construct sampleEnvNoAssets Flavor.JflteTouchWiz sampleArchiveStale).error
      ∧ (patchRamdisk sampleEnvNoAssets Flavor.JflteTouchWiz
          (construct sampleEnvNoAssets Flavor.JflteTouchWiz
            sampleArchiveStale)).2.cpio.entriesNamed "init" = []
      ∧ (patchRamdisk sampleEnvNoAssets Flavor.JflteTouchWiz
          (construct sampleEnvNoAssets Flavor.JflteTouchWiz
            sampleArchiveStale)).2.cpio.entriesNamed "sbin/adbd"
        = [⟨"sbin/adbd", "stock-adbd".toList, 0o750⟩] :=
  ⟨by decide,
    (asset_injection_result_ignored sampleEnvNoAssets Flavor.JflteTouchWiz
      (construct sampleEnvNoAssets Flavor.JflteTouchWiz sampleArchiveStale) (by decide)).1,
    (asset_injection_result_ignored sampleEnvNoAssets Flavor.JflteTouchWiz
      (construct sampleEnvNoAssets Flavor.JflteTouchWiz sampleArchiveStale) (by decide)).2.1,
    (asset_injection_result_ignored sampleEnvNoAssets Flavor.JflteTouchWiz
      (construct sampleEnvNoAssets Flavor.JflteTouchWiz sampleArchiveStale)
      (by decide)).2.2.2.2.2.2.1 rfl (by decide) (by decide),
    ((asset_injection_result_ignored sampleEnvNoAssets Flavor.JflteTouchWiz
      (construct sampleEnvNoAssets Flavor.JflteTouchWiz sampleArchiveStale)
      (by decide)).2.2.2.2.2.2.2 rfl (by decide) (by decide)).trans (by decide)⟩

/-- Counterexample to C9 as stated. In the sample environment without readable
assets every rule step of the AOSP pipeline succeeds, adding the mount helper
fails, `patchRamdisk` has called `addFile` for it and still returns `true`
with no error recorded, and the archive has no `init.additional.sh`. -/
theorem asset_injection_counterexample :
    firstFailure (ruleSteps sampleEnvNoAssets "" Flavor.JflteAOSP) sampleArchive = none
      ∧ (CpioFile.addFile sampleEnvNoAssets.fs
          (applySteps (ruleSteps sampleEnvNoAssets "" Flavor.JflteAOSP) sampleArchive)
          (sampleEnvNoAssets.pp.scriptsDirectory ++ "/jflte/mount.modem.sh")
          "init.additional.sh" 0o755).1 = false
      ∧ Call.cpioAddFile (sampleEnvNoAssets.pp.scriptsDirectory ++ "/jflte/mount.modem.sh")
          "init.additional.sh" 0o755
        ∈ (patchRamdisk sampleEnvNoAssets Flavor.JflteAOSP
            (construct sampleEnvNoAssets Flavor.JflteAOSP sampleArchive)).2.calls
      ∧ (patchRamdisk sampleEnvNoAssets Flavor.JflteAOSP
          (construct sampleEnvNoAssets Flavor.JflteAOSP sampleArchive)).1 = true
      ∧ JflteBaseRamdiskPatcher.error (patchRamdisk sampleEnvNoAssets Flavor.JflteAOSP
          (construct sampleEnvNoAssets Flavor.JflteAOSP sampleArchive)).2
        = ⟨ErrorCode.NoError, ""⟩
      ∧ (patchRamdisk sampleEnvNoAssets Flavor.JflteAOSP
          (construct sampleEnvNoAssets Flavor.JflteAOSP sampleArchive)).2.cpio.existsFile
            "init.additional.sh" = false := by
  decide

/-- C7. Variant detector. The release variant stored by the Google Edition and
TouchWiz constructors is a function of the archive alone: it is `JellyBean`
exactly when the archive contains an entry named `MSM8960_lpm.rc` and `KitKat`
exactly when it does not; the constructors leave the archive as it was; and
`patchRamdisk`, of any flavor, does not change the stored variant. -/
theorem variant_detector (E : Env) (cpio : CpioFile) :
    (JflteGoogleEditionRamdiskPatcher.new E cpio).getwVersion
        = (if cpio.existsFile Msm8960LpmRc then E.galaxy.JellyBean else E.galaxy.KitKat)
      ∧ (JflteTouchWizRamdiskPatcher.new E cpio).getwVersion
        = (if cpio.existsFile Msm8960LpmRc then E.galaxy.JellyBean else E.galaxy.KitKat)
      ∧ (cpio.existsFile Msm8960LpmRc = true ↔ ∃ e ∈ cpio.files, e.name = "MSM8960_lpm.rc")
      ∧ ((JflteGoogleEditionRamdiskPatcher.new E cpio).getwVersion = E.galaxy.JellyBean
          ↔ ∃ e ∈ cpio.files, e.name = "MSM8960_lpm.rc")
      ∧ ((JflteGoogleEditionRamdiskPatcher.new E cpio).getwVersion = E.galaxy.KitKat
          ↔ ¬ ∃ e ∈ cpio.files, e.name = "MSM8960_lpm.rc")
      ∧ ((JflteTouchWizRamdiskPatcher.new E cpio).getwVersion = E.galaxy.JellyBean
          ↔ ∃ e ∈ cpio.files, e.name = "MSM8960_lpm.rc")
      ∧ ((JflteTouchWizRamdiskPatcher.new E cpio).getwVersion = E.galaxy.KitKat
          ↔ ¬ ∃ e ∈ cpio.files, e.name = "MSM8960_lpm.rc")
      ∧ (JflteGoogleEditionRamdiskPatcher.new E cpio).cpio = cpio
      ∧ (JflteTouchWizRamdiskPatcher.new E cpio).cpio = cpio
      ∧ ∀ (flavor : Flavor) (m : Impl),
          (patchRamdisk E flavor m).2.getwVersion = m.getwVersion := by
  have hge := construct_getwVersion E Flavor.JflteGoogleEdition cpio (Or.inl rfl)
  have htw := construct_getwVersion E Flavor.JflteTouchWiz cpio (Or.inr rfl)
  have hcge := (construct_cpio_calls E Flavor.JflteGoogleEdition cpio).1
  have hctw := (construct_cpio_calls E Flavor.JflteTouchWiz cpio).1
  simp only [construct] at hge htw hcge hctw
  have hex := existsFile_iff cpio Msm8960LpmRc
  have hd := E.galaxy.distinct
  have key : ∀ v : String,
      v = (if cpio.existsFile Msm8960LpmRc then E.galaxy.JellyBean else E.galaxy.KitKat) →
      (v = E.galaxy.JellyBean ↔ ∃ e ∈ cpio.files, e.name = "MSM8960_lpm.rc")
        ∧ (v = E.galaxy.KitKat ↔ ¬ ∃ e ∈ cpio.files, e.name = "MSM8960_lpm.rc") := by
    intro v hv
    have hex2 : (cpio.existsFile Msm8960LpmRc = true
        ↔ ∃ e ∈ cpio.files, e.name = "MSM8960_lpm.rc") := hex
    by_cases hb : cpio.existsFile Msm8960LpmRc = true
    · rw [hb] at hv
      simp only [if_true] at hv
      subst hv
      exact ⟨⟨fun _ => hex2.mp hb, fun _ => rfl⟩,
        ⟨fun h => absurd h hd, fun h => absurd (hex2.mp hb) h⟩⟩
    · have hb2 : cpio.existsFile Msm8960LpmRc = false := by simpa using hb
      rw [hb2] at hv
      simp only [Bool.false_eq_true, if_false] at hv
      subst hv
      exact ⟨⟨fun h => absurd h.symm hd, fun h => absurd (hex2.mpr h) hb⟩,
        ⟨fun _ h => hb (hex2.mpr h), fun _ => rfl⟩⟩
  refine ⟨hge, htw, hex, (key _ hge).1, (key _ hge).2, (key _ htw).1, (key _ htw).2,
    hcge, hctw, ?_⟩
  intro flavor m
  rw [patchRamdisk_eq_runPipeline, runPipeline]
  apply runSteps_getwVersion
  intro m1
  exact (postSteps_keeps E flavor m1).1

theorem cxlRewrite_ne_nil (s : Bytes) (h : s ≠ []) : cxlRewrite s ≠ [] := by
  intro hnil
  have hlen := length_replace_all s
  rw [← cxlRewrite_eq, hnil] at hlen
  have := List.length_pos.mpr h
  simp at hlen
  omega

theorem cxl_of_empty (m : Impl) (h : m.cpio.contents InitTargetRc = []) :
    JflteNoobdevRamdiskPatcher.cxlModifyInitTargetRc m
      = (false, { m with error :=
          PatcherError.createCpioError ErrorCode.CpioFileNotExistError InitTargetRc }) := by
  unfold JflteNoobdevRamdiskPatcher.cxlModifyInitTargetRc
  simp [h]

theorem cxl_of_nonempty (m : Impl) (h : m.cpio.contents InitTargetRc ≠ []) :
    JflteNoobdevRamdiskPatcher.cxlModifyInitTargetRc m
      = (true, { m with cpio :=
          m.cpio.setContents InitTargetRc (cxlRewrite (m.cpio.contents InitTargetRc)) }) := by
  unfold JflteNoobdevRamdiskPatcher.cxlModifyInitTargetRc
  simp [h]

/-- C3. Idempotence of the noobdev target-init rewrite. For every patcher
state, running `cxlModifyInitTargetRc` a second time returns the same value
and leaves the same state (archive included) as the first run; and after one
run `init.target.rc` holds no occurrence of `init.dualboot.mounting.sh`. -/
theorem cxlModifyInitTargetRc_idempotent (m : Impl) :
    JflteNoobdevRamdiskPatcher.cxlModifyInitTargetRc
        (JflteNoobdevRamdiskPatcher.cxlModifyInitTargetRc m).2
      = JflteNoobdevRamdiskPatcher.cxlModifyInitTargetRc m
      ∧ find ((JflteNoobdevRamdiskPatcher.cxlModifyInitTargetRc m).2.cpio.contents
          InitTargetRc) dualBootScript = none := by
  by_cases h : m.cpio.contents InitTargetRc = []
  · rw [cxl_of_empty m h]
    constructor
    · simp only
      rw [cxl_of_empty _ (by simpa using h)]
    · simp only
      rw [h]
      decide
  · have hex := existsFile_of_contents_ne_nil _ _ h
    have hc : (m.cpio.setContents InitTargetRc
        (cxlRewrite (m.cpio.contents InitTargetRc))).contents InitTargetRc
        = cxlRewrite (m.cpio.contents InitTargetRc) := contents_setContents _ _ _ hex
    rw [cxl_of_nonempty m h]
    constructor
    · rw [cxl_of_nonempty _ (by simp only; rw [hc]; exact cxlRewrite_ne_nil _ h)]
      simp only
      rw [hc, setContents_setContents, cxlRewrite_eq, cxlRewrite_eq, replace_all_idem]
    · simp only
      rw [hc, cxlRewrite_eq]
      exact find_replace_all _

/-- C4. Failure of the noobdev target-init rewrite. `cxlModifyInitTargetRc`
returns `false` if and only if the archive has no `init.target.rc` entry or
the content of that entry is empty; when it returns `false` the error is the
`CpioFileNotExistError` naming `init.target.rc` and the archive is unchanged;
when the content is not empty it returns `true`. -/
theorem cxlModifyInitTargetRc_fails_iff (m : Impl) :
    ((JflteNoobdevRamdiskPatcher.cxlModifyInitTargetRc m).1 = false
        ↔ (m.cpio.existsFile InitTargetRc = false ∨ m.cpio.contents InitTargetRc = []))
      ∧ ((JflteNoobdevRamdiskPatcher.cxlModifyInitTargetRc m).1 = false →
          JflteBaseRamdiskPatcher.error (JflteNoobdevRamdiskPatcher.cxlModifyInitTargetRc m).2
              = PatcherError.createCpioError ErrorCode.CpioFileNotExistError "init.target.rc"
            ∧ (JflteNoobdevRamdiskPatcher.cxlModifyInitTargetRc m).2.cpio = m.cpio)
      ∧ (m.cpio.contents InitTargetRc ≠ [] →
          (JflteNoobdevRamdiskPatcher.cxlModifyInitTargetRc m).1 = true) := by
  by_cases h : m.cpio.contents InitTargetRc = []
  · rw [cxl_of_empty m h]
    exact ⟨⟨fun _ => Or.inr h, fun _ => rfl⟩, fun _ => ⟨rfl, rfl⟩, fun hne => absurd h hne⟩
  · rw [cxl_of_nonempty m h]
    refine ⟨⟨fun hf => by simp at hf, ?_⟩, fun hf => by simp at hf, fun _ => rfl⟩
    rintro (hne | hnil)
    · exact absurd (contents_of_not_existsFile _ _ hne) h
    · exact absurd hnil h

/-- C5. Line-wise effect of the noobdev target-init rewrite. For every
non-empty `init.target.rc`, `cxlModifyInitTargetRc` succeeds and the stored
content, split on the newline, is the old content split on the newline with
every line patched; so the number of lines is the same. A line that contains
`init.dualboot.mounting.sh` becomes its `replace_all` image, which holds no
occurrence any more; a line that does not contain it is unchanged. The line
`exec /sbin/init.dualboot.mounting.sh arg1` becomes
`exec /sbin/init.multiboot.mounting.sh arg1`. -/
theorem cxlModifyInitTargetRc_lines (m : Impl) (h : m.cpio.contents InitTargetRc ≠ []) :
    (JflteNoobdevRamdiskPatcher.cxlModifyInitTargetRc m).1 = true
      ∧ split ((JflteNoobdevRamdiskPatcher.cxlModifyInitTargetRc m).2.cpio.contents
            InitTargetRc) '\n'
          = (split (m.cpio.contents InitTargetRc) '\n').map cxlPatchLine
      ∧ (split ((JflteNoobdevRamdiskPatcher.cxlModifyInitTargetRc m).2.cpio.contents
            InitTargetRc) '\n').length
          = (split (m.cpio.contents InitTargetRc) '\n').length
      ∧ (∀ line : Bytes, (find line dualBootScript).isSome = true →
          cxlPatchLine line = replace_all line dualBootScript multiBootScript
            ∧ find (cxlPatchLine line) dualBootScript = none)
      ∧ (∀ line : Bytes, find line dualBootScript = none → cxlPatchLine line = line)
      ∧ cxlPatchLine "exec /sbin/init.dualboot.mounting.sh arg1".toList
          = "exec /sbin/init.multiboot.mounting.sh arg1".toList := by
  have hex := existsFile_of_contents_ne_nil _ _ h
  have hc : (m.cpio.setContents InitTargetRc
      (cxlRewrite (m.cpio.contents InitTargetRc))).contents InitTargetRc
      = cxlRewrite (m.cpio.contents InitTargetRc) := contents_setContents _ _ _ hex
  rw [cxl_of_nonempty m h]
  refine ⟨rfl, ?_, ?_, ?_, ?_, by decide⟩
  · simp only
    rw [hc, split_cxlRewrite]
  · simp only
    rw [hc, split_cxlRewrite, List.length_map]
  · intro line _
    refine ⟨cxlPatchLine_eq line, ?_⟩
    rw [cxlPatchLine_eq]
    exact find_replace_all line
  · intro line hnone
    rw [cxlPatchLine_eq]
    exact replace_all_of_find_none _ _ _ hnone

/-- Witness for C5: the rewrite on a patcher owning the sample archive. -/
theorem cxlModifyInitTargetRc_lines_witness :
    sampleArchive.contents InitTargetRc ≠ []
      ∧ (JflteNoobdevRamdiskPatcher.cxlModifyInitTargetRc
          (JflteBaseRamdiskPatcher.new sampleArchive)).1 = true
      ∧ split ((JflteNoobdevRamdiskPatcher.cxlModifyInitTargetRc
            (JflteBaseRamdiskPatcher.new sampleArchive)).2.cpio.contents InitTargetRc) '\n'
          = (split ((JflteBaseRamdiskPatcher.new sampleArchive).cpio.contents InitTargetRc)
              '\n').map cxlPatchLine :=
  ⟨by decide,
    (cxlModifyInitTargetRc_lines (JflteBaseRamdiskPatcher.new sampleArchive) (by decide)).1,
    (cxlModifyInitTargetRc_lines (JflteBaseRamdiskPatcher.new sampleArchive)
      (by decide)).2.1⟩

/-- C10. The line-by-line rewrite of `cxlModifyInitTargetRc` (split on the
newline, patch each line that contains `init.dualboot.mounting.sh`, join with
the newline) equals one left-to-right `replace_all` over the whole content;
content with no occurrence is written back unchanged; and the length of the
output is the length of the input plus the number of occurrences. -/
theorem cxlRewrite_whole_content (s : Bytes) :
    cxlRewrite s = replace_all s dualBootScript multiBootScript
      ∧ (find s dualBootScript = none → cxlRewrite s = s)
      ∧ (cxlRewrite s).length = s.length + countOcc dualBootScript s := by
  refine ⟨cxlRewrite_eq s, ?_, ?_⟩
  · intro hnone
    rw [cxlRewrite_eq]
    exact replace_all_of_find_none _ _ _ hnone
  · rw [cxlRewrite_eq]
    exact length_replace_all s

end Jflte
